import Mathlib

/-!
Verification of the peer reconciliation and health-reporting engine of
NeoEasyTierDeamon.

The development shallowly embeds the core logic of the repository:

* the peer reconciler `sync_peers_to_db` of neo-uptime-node/src/main.rs
  (and the variant in easytier-uptime/src/distributed_probe.rs),
* the per-peer status-report retry loop of
  neo-uptime-node/src/main.rs::start_status_report_task,
* the aggregate latency computation of
  easytier-uptime/src/distributed_probe.rs::start_status_report_task,
* the peer fetch loop of easytier-uptime/src/backend_client.rs::fetch_peers.

Rust i32 values are modelled as Int (with explicit range checks where the
source performs them), Rust strings as String, and the on-disk Peer Store
(the sea-orm shared_nodes table, which is not part of the provided sources)
as an explicit list of records with insert / lookup / update operations
modelled from the specification's description of the Peer Store.
-/

namespace NeoUptime

/-! ## Decimal rendering and i32 parsing

Models Rust's integer formatting (format! of an i32) and parsing
(str::parse::<i32>), which the source uses to embed the backend peer id in
the description field and to recover it. -/

/-- Character for a single decimal digit, as produced by Rust formatting. -/
def decDigitChar (d : Nat) : Char := Char.ofNat (48 + d)

/-- Little-endian decimal digits of a natural number; the fuel argument makes
the recursion structural, any fuel above the number suffices. -/
def natDigitsLEAux (fuel : Nat) (n : Nat) : List Char :=
  match fuel with
  | 0 => []
  | fuel + 1 =>
    if n < 10 then [decDigitChar n]
    else decDigitChar (n % 10) :: natDigitsLEAux fuel (n / 10)

/-- Little-endian decimal digits of a natural number. -/
def natDigitsLE (n : Nat) : List Char := natDigitsLEAux (n + 1) n

/-- Decimal rendering of a natural number (most significant digit first). -/
def natDecimalChars (n : Nat) : List Char := (natDigitsLE n).reverse

/-- Decimal rendering of an integer, as Rust's Display for i32 produces it. -/
def intDecimalChars (k : Int) : List Char :=
  if k < 0 then '-' :: natDecimalChars k.natAbs else natDecimalChars k.toNat

/-- Numeric value of a decimal digit character, none for a non-digit. -/
def digitVal? (c : Char) : Option Nat :=
  if 48 ≤ c.toNat ∧ c.toNat ≤ 57 then some (c.toNat - 48) else none

/-- Accumulating decimal parser over a character list; fails on any
non-digit character. -/
def parseNatAcc : List Char → Nat → Option Nat
  | [], acc => some acc
  | c :: rest, acc =>
    match digitVal? c with
    | some d => parseNatAcc rest (acc * 10 + d)
    | none => none

/-- Parse a non-empty all-digit character list as a natural number. -/
def parseNatChars (l : List Char) : Option Nat :=
  match l with
  | [] => none
  | l => parseNatAcc l 0

/-- Model of Rust's str::parse::<i32>: optional sign, at least one digit,
and the value must fit in a 32-bit signed integer. -/
def parseI32Chars (l : List Char) : Option Int :=
  match l with
  | [] => none
  | c :: rest =>
    if c = '+' then
      (parseNatChars rest).bind fun n =>
        if n ≤ 2147483647 then some (n : Int) else none
    else if c = '-' then
      (parseNatChars rest).bind fun n =>
        if n ≤ 2147483648 then some (-(n : Int)) else none
    else
      (parseNatChars (c :: rest)).bind fun n =>
        if n ≤ 2147483647 then some (n : Int) else none

/-- The descriptor's backend id lies in i32 range (it is an i32 in Rust). -/
def InI32 (k : Int) : Prop := -2147483648 ≤ k ∧ k ≤ 2147483647

instance (k : Int) : Decidable (InI32 k) := by unfold InI32; infer_instance

/-- Model of Rust's str::strip_prefix on character lists. -/
def stripPrefixChars : List Char → List Char → Option (List Char)
  | [], s => some s
  | _ :: _, [] => none
  | c :: p, d :: s => if c = d then stripPrefixChars p s else none

/-- Model of Rust's str::strip_suffix on character lists. -/
def stripSuffixChars (ending s : List Char) : Option (List Char) :=
  (stripPrefixChars ending.reverse s.reverse).map List.reverse

/-- The fixed correlation prefix used by the reconciler:
format!("Auto-added from backend (ID: {})", id). -/
def descPrefixStr : String := "Auto-added from backend (ID: "

/-- The description written for a peer auto-added from the backend. -/
def descFor (k : Int) : String :=
  String.mk (descPrefixStr.data ++ intDecimalChars k ++ [')'])

/-- Recover the backend peer id from a description, as the source does:
strip_prefix, then strip_suffix of the closing parenthesis, then
parse::<i32>. -/
def parseDescId (s : String) : Option Int :=
  (stripPrefixChars descPrefixStr.data s.data).bind fun r =>
    (stripSuffixChars [')'] r).bind parseI32Chars

/-! ## Data model

BackendPeer mirrors easytier-uptime/src/backend_client.rs (the peer
descriptor fetched from the backend).  SharedNode is the persisted
LocalPeer record; its fields follow the columns the source reads and
writes on the shared_nodes entity.  CreateNodeRequest mirrors
neo-uptime-node/src/models.rs. -/

/-- Peer descriptor fetched from the backend
(easytier-uptime/src/backend_client.rs, struct BackendPeer). -/
structure BackendPeer where
  id : Int
  name : String
  description : Option String := none
  sponsor : Option String := none
  location : Option String := none
  allow_relay : Option Bool := none
  public_ip : Option String := none
  protocol : Option String := none
  network_name : Option String := none
  network_secret : Option String := none
  status : String := "online"
  latency_ms : Option Int := none
  peer : Option Int := none
  last_heartbeat : Option String := none
deriving Repr, DecidableEq

/-- Modelled from the spec: the persisted LocalPeer record of the Peer
Store (the sea-orm shared_nodes entity is not among the provided sources);
the fields are exactly those the reconciler and reporter read or write. -/
structure SharedNode where
  id : Nat
  name : String
  host : String
  port : Int
  protocol : String
  description : String
  max_connections : Int
  allow_relay : Bool
  network_name : String
  network_secret : String
  is_approved : Bool
deriving Repr, DecidableEq

/-- Node creation request (neo-uptime-node/src/models.rs). -/
structure CreateNodeRequest where
  name : String
  host : String
  port : Int
  protocol : String
  description : Option String
  max_connections : Int
  allow_relay : Bool
  network_name : String
  network_secret : Option String
  qq_number : Option String
  wechat : Option String
  mail : Option String
deriving Repr, DecidableEq

/-- Modelled from the spec: db::HealthStatus, the in-memory health state
of one peer (Healthy / Unhealthy / Unknown); the db module is not among
the provided sources. -/
inductive HealthStatus
  | Healthy
  | Unhealthy
  | Unknown
deriving Repr, DecidableEq

/-- Modelled from the spec: the durable Peer Store, a table of LocalPeer
records with a fresh-id counter for inserts. -/
structure Db where
  nodes : List SharedNode
  nextId : Nat
deriving Repr, DecidableEq

/-- Modelled from the spec: Peer Store lookup by local id
(NodeOperations::get_node_by_id). -/
def getNodeById (db : Db) (t : Nat) : Option SharedNode :=
  db.nodes.find? fun n => n.id = t

/-- Modelled from the spec: Peer Store field update by local id (the
sea-orm ActiveModel update); replaces the record carrying the id. -/
def updateNode (db : Db) (n' : SharedNode) : Db :=
  { db with nodes := db.nodes.map fun n => if n.id = n'.id then n' else n }

/-- Modelled from the spec: Peer Store insert
(NodeOperations::create_node); assigns a fresh local id, stores the
requested fields and leaves the record pending approval. -/
def createNode (db : Db) (req : CreateNodeRequest) : Db × SharedNode :=
  let node : SharedNode :=
    { id := db.nextId
      name := req.name
      host := req.host
      port := req.port
      protocol := req.protocol
      description := req.description.getD ""
      max_connections := req.max_connections
      allow_relay := req.allow_relay
      network_name := req.network_name
      network_secret := req.network_secret.getD ""
      is_approved := false }
  ({ nodes := db.nodes ++ [node], nextId := db.nextId + 1 }, node)

/-- Well-formedness the underlying storage engine guarantees: local ids
are unique primary keys and the fresh-id counter is ahead of every
existing record. -/
def Db.WF (db : Db) : Prop :=
  (db.nodes.map (fun n => n.id)).Nodup ∧ ∀ n ∈ db.nodes, n.id < db.nextId

instance (db : Db) : Decidable db.WF := by unfold Db.WF; infer_instance

/-- Model of Rust's str::split_once at the first colon, used to split a
public_ip of the form ip:port. -/
def splitOnceColon : List Char → Option (List Char × List Char)
  | [] => none
  | c :: rest =>
    if c = ':' then some ([], rest)
    else (splitOnceColon rest).map fun p => (c :: p.1, p.2)

/-- Host and port resolved from a public_ip string, as the create branch
of sync_peers_to_db does: split at the first colon, parse the port part as
i32 with fallback 11010, or use the whole string with default port 11010. -/
def parsePublicIp (s : String) : String × Int :=
  match splitOnceColon s.data with
  | some (ip, portStr) => (String.mk ip, (parseI32Chars portStr).getD 11010)
  | none => (s, 11010)

/-- The correlation key stored in a LocalPeer record: the backend id
recovered from its description. -/
def keyOf (n : SharedNode) : Option Int := parseDescId n.description

/-- The HashMap keyed by backend id that sync_peers_to_db builds from the
current node list: inserting in iteration order means the last record
whose description parses to the key wins. -/
def nodeWithBackendId (nodes : List SharedNode) (k : Int) : Option SharedNode :=
  (nodes.filter fun n => decide (keyOf n = some k)).getLast?

/-- State threaded through one reconciliation cycle: the Peer Store, the
local ids passed to HealthChecker::try_update_node (the reload signal), in
call order, and the peer-metadata map insertions (latest first). -/
structure SyncEnv where
  db : Db
  reloads : List Nat
  metadata : List (Nat × BackendPeer)
deriving Repr, DecidableEq

/-- Relation between a pending descriptor, the frozen map, and the current
store: the frozen winner for the descriptor's key is still the current
winner and is still the record stored under its local id (no descriptor
processed so far has touched it), or the key is absent from both. -/
def PendingOK (frozen : List SharedNode) (db : Db) (p : BackendPeer) : Prop :=
  match nodeWithBackendId frozen p.id with
  | some ex =>
      nodeWithBackendId db.nodes p.id = some ex ∧ getNodeById db ex.id = some ex
  | none => nodeWithBackendId db.nodes p.id = none

namespace NodeBin

/-! ## The reconciler of neo-uptime-node/src/main.rs (sync_peers_to_db) -/

/-- The body of the found-in-map branch of sync_peers_to_db
(neo-uptime-node/src/main.rs, lines 386-419): refresh the metadata cache,
compare the stored network secret with the descriptor's (a missing secret
counts as empty) and the stored description with the canonical one, and if
either differs re-fetch the record by local id, persist only the changed
fields, and on a secret change signal try_update_node for the local id. -/
def syncExisting (env : SyncEnv) (bp : BackendPeer) (existing : SharedNode) :
    SyncEnv :=
  let env1 := { env with metadata := (existing.id, bp) :: env.metadata }
  let backendSecret := bp.network_secret.getD ""
  let expectedDesc := descFor bp.id
  if existing.network_secret ≠ backendSecret ∨
      existing.description ≠ expectedDesc then
    match getNodeById env1.db existing.id with
    | some node =>
      let node' := { node with
        network_secret :=
          if existing.network_secret ≠ backendSecret then backendSecret
          else node.network_secret
        description :=
          if existing.description ≠ expectedDesc then expectedDesc
          else node.description }
      let env2 := { env1 with db := updateNode env1.db node' }
      if existing.network_secret ≠ backendSecret then
        { env2 with reloads := env2.reloads ++ [existing.id] }
      else env2
    | none => env1
  else env1

/-- The body of the not-found branch of sync_peers_to_db
(neo-uptime-node/src/main.rs, lines 420-478): skip a descriptor with no
public_ip, otherwise resolve host and port, insert a new record with the
canonical description, auto-approve it and cache its metadata. -/
def syncNew (env : SyncEnv) (bp : BackendPeer) : SyncEnv :=
  match bp.public_ip with
  | none => env
  | some publicIp =>
    let hp := parsePublicIp publicIp
    let req : CreateNodeRequest :=
      { name := bp.name
        host := hp.1
        port := hp.2
        protocol := bp.protocol.getD "tcp"
        description := some (descFor bp.id)
        max_connections := 100
        allow_relay := bp.allow_relay.getD true
        network_name := bp.network_name.getD "default"
        network_secret := bp.network_secret
        qq_number := none
        wechat := none
        mail := none }
    let created := createNode env.db req
    let node' := { created.2 with is_approved := true }
    { env with
      db := updateNode created.1 node'
      metadata := (created.2.id, bp) :: env.metadata }

/-- One iteration of the for-loop of sync_peers_to_db: look the descriptor
up in the map built before the loop (frozen at the cycle's start) and take
the corresponding branch. -/
def syncPeer (frozen : List SharedNode) (env : SyncEnv) (bp : BackendPeer) :
    SyncEnv :=
  match nodeWithBackendId frozen bp.id with
  | some existing => syncExisting env bp existing
  | none => syncNew env bp

/-- The for-loop of sync_peers_to_db over the fetched descriptors. -/
def syncLoop (frozen : List SharedNode) (env : SyncEnv) :
    List BackendPeer → SyncEnv
  | [] => env
  | bp :: rest => syncLoop frozen (syncPeer frozen env bp) rest

/-- sync_peers_to_db of neo-uptime-node/src/main.rs: build the
backend-id-keyed map from the current records, then process every fetched
descriptor against that frozen map; nothing is ever deleted. -/
def sync_peers_to_db (db : Db) (peers : List BackendPeer) : SyncEnv :=
  syncLoop db.nodes { db := db, reloads := [], metadata := [] } peers

/-! ### Shape of a single reconciliation step -/

/-- The state a descriptor leaves its correlation key in after its
reconciliation step: the winning record stores the descriptor's secret
(missing treated as empty) and the canonical description, or the key is
absent and the descriptor had no address to create a record from. -/
def goodFor (nodes : List SharedNode) (p : BackendPeer) : Prop :=
  match nodeWithBackendId nodes p.id with
  | some w =>
      w.network_secret = p.network_secret.getD "" ∧ w.description = descFor p.id
  | none => p.public_ip = none

/-- The record as the update branch leaves it: descriptor's secret and the
canonical description, everything else untouched. -/
def updExisting (bp : BackendPeer) (ex : SharedNode) : SharedNode :=
  { ex with
    network_secret := bp.network_secret.getD ""
    description := descFor bp.id }

/-- The record the create branch inserts (already auto-approved). -/
def newNode (env : SyncEnv) (bp : BackendPeer) (publicIp : String) : SharedNode :=
  { id := env.db.nextId
    name := bp.name
    host := (parsePublicIp publicIp).1
    port := (parsePublicIp publicIp).2
    protocol := bp.protocol.getD "tcp"
    description := descFor bp.id
    max_connections := 100
    allow_relay := bp.allow_relay.getD true
    network_name := bp.network_name.getD "default"
    network_secret := bp.network_secret.getD ""
    is_approved := true }

/-! ### The per-peer report retry loop of start_status_report_task
(neo-uptime-node/src/main.rs, lines 314-353) -/

/-- Substring test, the model of Rust's str::contains. -/
def startsWithChars : List Char → List Char → Bool
  | [], _ => true
  | _ :: _, [] => false
  | c :: p, d :: s => c = d && startsWithChars p s

def charsHasSub : List Char → List Char → Bool
  | [], pat => pat.isEmpty
  | c :: t, pat => startsWithChars pat (c :: t) || charsHasSub t pat

def strContains (s pat : String) : Bool := charsHasSub s.data pat.data

/-- The authentication-failure test of the retry loop:
e.to_string().contains("401") || e.to_string().contains("Unauthorized"). -/
def isAuthError (e : String) : Bool :=
  strContains e "401" || strContains e "Unauthorized"

/-- The fixed retry maximum of the loop (let max_retries = 3). -/
def max_retries : Nat := 3

/-- The report retry loop for one peer.  outcome n is the result of the
(n+1)-st report_status call; retryCount counts failures so far, and the
structural fuel argument is max_retries - retryCount, which the loop's own
break condition bounds.  Returns the number of report attempts made and
the backoff sleeps performed (in seconds, in order): on a failure the
counter increments, an unauthorized error breaks immediately, reaching
max_retries breaks, and otherwise the loop sleeps 2 ^ retry_count seconds
and tries again. -/
def reportRetryGo (outcome : Nat → Except String Unit) (retryCount : Nat) :
    Nat → Nat × List Nat
  | 0 => (retryCount + 1, [])
  | fuel + 1 =>
    match outcome retryCount with
    | Except.ok _ => (retryCount + 1, [])
    | Except.error e =>
      if isAuthError e then (retryCount + 1, [])
      else if fuel = 0 then (retryCount + 1, [])
      else
        let r := reportRetryGo outcome (retryCount + 1) fuel
        (r.1, 2 ^ (retryCount + 1) :: r.2)

/-- The whole retry loop for one peer, as entered with retry_count = 0. -/
def report_with_retry (outcome : Nat → Except String Unit) : Nat × List Nat :=
  reportRetryGo outcome 0 max_retries


/-! ### The per-peer report shaping of neo-uptime-node/src/main.rs
(lines 263-270) -/

/-- The reported status string: "online" for Healthy, "offline" otherwise. -/
def reportStatusStr (hs : HealthStatus) : String :=
  match hs with
  | HealthStatus.Healthy => "online"
  | _ => "offline"

/-- The reported latency: the last RTT (microseconds) divided by 1000, or
0 when no latency has been observed
(rtt_us.map(|us| (us / 1000) as i32).unwrap_or(0)). -/
def reportLatencyMs (rtt_us : Option Int) : Int :=
  (rtt_us.map fun us => Int.tdiv us 1000).getD 0

end NodeBin

namespace NodeVariant

/-! ## The per-peer report shaping of the embedded variant
easytier-uptime/src/neo_uptime_node.rs (lines 263-270) -/

/-- The reported status string of the variant: "Online" for Healthy,
"Offline" otherwise. -/
def reportStatusStr (hs : HealthStatus) : String :=
  match hs with
  | HealthStatus.Healthy => "Online"
  | _ => "Offline"

/-- The reported latency of the variant: the last RTT divided by 1000,
kept optional with no 0 default (rtt_us.map(|us| us / 1000)). -/
def reportResponseTimeMs (rtt_us : Option Int) : Option Int :=
  rtt_us.map fun us => Int.tdiv us 1000

end NodeVariant

namespace DistProbe

/-! ## The reconciler variant of easytier-uptime/src/distributed_probe.rs
(sync_peers_to_db, lines 237-350) and its aggregate status report
(lines 131-217) -/

/-- State threaded through one cycle of the variant: the Peer Store and
the reload signals (no metadata cache in this variant). -/
structure DSyncEnv where
  db : Db
  reloads : List Nat
deriving Repr, DecidableEq

/-- The found-in-map branch of the variant: compare name, network name
(missing treated as "default") and network secret (missing treated as
empty); if any differs, re-fetch by local id, set all three fields, and on
a successful update always signal try_update_node. -/
def syncExisting (env : DSyncEnv) (bp : BackendPeer) (existing : SharedNode) :
    DSyncEnv :=
  let backendSecret := bp.network_secret.getD ""
  let backendNetworkName := bp.network_name.getD "default"
  if existing.name ≠ bp.name ∨ existing.network_name ≠ backendNetworkName ∨
      existing.network_secret ≠ backendSecret then
    match getNodeById env.db existing.id with
    | some node =>
      let node' := { node with
        name := bp.name
        network_name := backendNetworkName
        network_secret := backendSecret }
      { db := updateNode env.db node', reloads := env.reloads ++ [existing.id] }
    | none => env
  else env

/-- The not-found branch of the variant: identical to the standalone
binary's create branch (skip without public_ip, else insert auto-approved
with the canonical description). -/
def syncNew (env : DSyncEnv) (bp : BackendPeer) : DSyncEnv :=
  match bp.public_ip with
  | none => env
  | some publicIp =>
    let hp := parsePublicIp publicIp
    let req : CreateNodeRequest :=
      { name := bp.name
        host := hp.1
        port := hp.2
        protocol := bp.protocol.getD "tcp"
        description := some (descFor bp.id)
        max_connections := 100
        allow_relay := bp.allow_relay.getD true
        network_name := bp.network_name.getD "default"
        network_secret := bp.network_secret
        qq_number := none
        wechat := none
        mail := none }
    let created := createNode env.db req
    let node' := { created.2 with is_approved := true }
    { env with db := updateNode created.1 node' }

/-- One loop iteration of the variant's sync_peers_to_db. -/
def syncPeer (frozen : List SharedNode) (env : DSyncEnv) (bp : BackendPeer) :
    DSyncEnv :=
  match nodeWithBackendId frozen bp.id with
  | some existing => syncExisting env bp existing
  | none => syncNew env bp

/-- The for-loop of the variant's sync_peers_to_db. -/
def syncLoop (frozen : List SharedNode) (env : DSyncEnv) :
    List BackendPeer → DSyncEnv
  | [] => env
  | bp :: rest => syncLoop frozen (syncPeer frozen env bp) rest

/-- sync_peers_to_db of easytier-uptime/src/distributed_probe.rs. -/
def sync_peers_to_db (db : Db) (peers : List BackendPeer) : DSyncEnv :=
  syncLoop db.nodes { db := db, reloads := [] } peers

/-- The state the variant's found branch leaves a key in: the winning
record carries the descriptor's name, network name (missing treated as
"default") and secret (missing treated as empty); or the key is absent
and the descriptor had no address. -/
def goodForD (nodes : List SharedNode) (p : BackendPeer) : Prop :=
  match nodeWithBackendId nodes p.id with
  | some w =>
      w.name = p.name ∧ w.network_name = p.network_name.getD "default" ∧
      w.network_secret = p.network_secret.getD ""
  | none => p.public_ip = none

/-- The record as the variant's update branch leaves it: name, network
name and secret taken from the descriptor, everything else untouched. -/
def updExistingD (bp : BackendPeer) (ex : SharedNode) : SharedNode :=
  { ex with
    name := bp.name
    network_name := bp.network_name.getD "default"
    network_secret := bp.network_secret.getD "" }

/-- The record the variant's create branch inserts (auto-approved). -/
def newNodeD (env : DSyncEnv) (bp : BackendPeer) (publicIp : String) :
    SharedNode :=
  { id := env.db.nextId
    name := bp.name
    host := (parsePublicIp publicIp).1
    port := (parsePublicIp publicIp).2
    protocol := bp.protocol.getD "tcp"
    description := descFor bp.id
    max_connections := 100
    allow_relay := bp.allow_relay.getD true
    network_name := bp.network_name.getD "default"
    network_secret := bp.network_secret.getD ""
    is_approved := true }

/-! ### The aggregate status report of start_status_report_task
(easytier-uptime/src/distributed_probe.rs, lines 131-217) -/

/-- The raw RTT values (native microsecond ticks) of the currently healthy
peers, in snapshot order: filter the health snapshot for Healthy entries
and look each node's last response time up, dropping unknowns. -/
def healthyRttValues (allStatuses : List (Nat × HealthStatus × Option String))
    (rtt : Nat → Option Int) : List Int :=
  (allStatuses.filter fun s => decide (s.2.1 = HealthStatus.Healthy)).filterMap
    fun s => rtt s.1

/-- avg_response_time: none when nothing is monitored or no healthy peer
has an RTT, otherwise the sum of the per-value truncated millisecond
conversions divided by the count (all i32 divisions truncate toward zero,
hence Int.tdiv). -/
def avg_response_time (allStatuses : List (Nat × HealthStatus × Option String))
    (rtt : Nat → Option Int) : Option Int :=
  if allStatuses.isEmpty then none
  else
    let rttValues := healthyRttValues allStatuses rtt
    if rttValues.isEmpty then none
    else some (Int.tdiv ((rttValues.map fun v => Int.tdiv v 1000).sum)
      (rttValues.length : Int))

/-- max_response_time: the maximum of the raw tick values, converted to
milliseconds afterwards (.max().map(|rtt| rtt / 1000)). -/
def max_response_time (allStatuses : List (Nat × HealthStatus × Option String))
    (rtt : Nat → Option Int) : Option Int :=
  if allStatuses.isEmpty then none
  else (healthyRttValues allStatuses rtt).max?.map fun v => Int.tdiv v 1000

end DistProbe

namespace BackendClientApi

/-! ## fetch_peers of easytier-uptime/src/backend_client.rs (lines 157-248)

The two HTTP requests are abstracted as their results: statusResp is the
outcome of the initial GET /node-status (send failure, non-2xx status or
body-parse failure collapse to an error, each of which makes fetch_peers
bail out), and privInfo gives the outcome of
GET /nodes/{node_id}/private-info per node id, whose three failure modes
(send failure, non-2xx status, body-parse failure) all hit a continue in
the source and likewise collapse to an error. -/

/-- Response entry of GET /node-status. -/
structure NodeStatus where
  node_id : Int
  status : String
  latency_ms : Option Int := none
  peer : Option Int := none
  last_heartbeat : Option String := none
deriving Repr, DecidableEq

/-- Response of GET /nodes/{node_id}/private-info. -/
structure NodePrivateInfo where
  id : Int
  name : String
  protocol : Option String := none
  description : Option String := none
  sponsor : Option String := none
  location : Option String := none
  allow_relay : Option Bool := none
  created_at : Option String := none
  updated_at : Option String := none
  public_ip : Option String := none
  network_name : Option String := none
  network_secret : Option String := none
deriving Repr, DecidableEq

/-- Combine node status and private info into a BackendPeer, exactly the
struct literal of the source. -/
def combinePeer (ns : NodeStatus) (info : NodePrivateInfo) : BackendPeer :=
  { id := info.id
    name := info.name
    description := info.description
    sponsor := info.sponsor
    location := info.location
    allow_relay := info.allow_relay
    public_ip := info.public_ip
    protocol := info.protocol
    network_name := info.network_name
    network_secret := info.network_secret
    status := ns.status
    latency_ms := ns.latency_ms
    peer := ns.peer
    last_heartbeat := ns.last_heartbeat }

/-- The successful part of a fallible result. -/
def okPart {α : Type} : Except String α → Option α
  | Except.ok a => some a
  | Except.error _ => none

/-- The per-node loop of fetch_peers: fetch private info for each node in
node-status order; any failure for one node skips just that node. -/
def fetchPeersLoop (privInfo : Int → Except String NodePrivateInfo) :
    List NodeStatus → List BackendPeer
  | [] => []
  | ns :: rest =>
    match privInfo ns.node_id with
    | Except.ok info => combinePeer ns info :: fetchPeersLoop privInfo rest
    | Except.error _ => fetchPeersLoop privInfo rest

/-- fetch_peers: bail out if the initial node-status request failed,
otherwise run the per-node loop and return Ok. -/
def fetch_peers (statusResp : Except String (List NodeStatus))
    (privInfo : Int → Except String NodePrivateInfo) :
    Except String (List BackendPeer) :=
  match statusResp with
  | Except.error e => Except.error e
  | Except.ok nodeStatuses => Except.ok (fetchPeersLoop privInfo nodeStatuses)

end BackendClientApi

namespace Fixtures

/-! ## Concrete fixtures used by witnesses and counterexamples -/

/-- A descriptor with backend id 5. -/
def dupPeer : BackendPeer :=
  { id := 5, name := "peer-a", public_ip := some "1.2.3.4:11010",
    network_secret := some "secret-a" }

/-- A second descriptor carrying the same backend id 5. -/
def dupPeerB : BackendPeer :=
  { id := 5, name := "peer-b", public_ip := some "5.6.7.8:11011",
    network_secret := some "secret-b" }

/-- An empty Peer Store. -/
def emptyDb : Db := { nodes := [], nextId := 1 }

/-- A stored LocalPeer correlated with backend id 7. -/
def node7 : SharedNode :=
  { id := 1, name := "n7", host := "9.9.9.9", port := 11010, protocol := "tcp",
    description := "Auto-added from backend (ID: 7)", max_connections := 100,
    allow_relay := true, network_name := "default",
    network_secret := "old-secret", is_approved := true }

/-- A Peer Store holding exactly node7. -/
def db7 : Db := { nodes := [node7], nextId := 2 }

/-- A descriptor for backend id 7 carrying a changed network secret. -/
def peer7 : BackendPeer :=
  { id := 7, name := "n7", public_ip := some "9.9.9.9:11010",
    network_secret := some "new-secret" }

/-- A descriptor for backend id 7 carrying the stored secret unchanged. -/
def peer7same : BackendPeer :=
  { id := 7, name := "n7", public_ip := some "9.9.9.9:11010",
    network_secret := some "old-secret" }

/-- A fresh descriptor for backend id 9 (no port in its address). -/
def peer9 : BackendPeer :=
  { id := 9, name := "n9", public_ip := some "8.8.8.8" }

/-- A descriptor with no address information at all. -/
def peerNoIp : BackendPeer := { id := 42, name := "ghost" }

/-- A report outcome that always fails with an authentication error. -/
def authOutcome : Nat → Except String Unit :=
  fun _ => Except.error "HTTP status 401 Unauthorized"

/-- A report outcome that always fails with a transient error. -/
def failOutcome : Nat → Except String Unit :=
  fun _ => Except.error "connection refused"

/-- A health snapshot of three healthy peers. -/
def sts0 : List (Nat × HealthStatus × Option String) :=
  [(1, HealthStatus.Healthy, none), (2, HealthStatus.Healthy, none),
    (3, HealthStatus.Healthy, none)]

/-- Their raw latencies: 5000, 7000 and 9000 native ticks. -/
def rtt0 : Nat → Option Int := fun n =>
  if n = 1 then some 5000
  else if n = 2 then some 7000
  else if n = 3 then some 9000
  else none

end Fixtures

/-! ## Proofs -/

/-! ### Round-trip facts about the correlation encoding -/

theorem digitVal_decDigitChar (d : Nat) (h : d < 10) :
    digitVal? (decDigitChar d) = some d := by
  interval_cases d <;> decide

theorem decDigitChar_ne_plus (d : Nat) (h : d < 10) : decDigitChar d ≠ '+' := by
  interval_cases d <;> decide

theorem decDigitChar_ne_minus (d : Nat) (h : d < 10) : decDigitChar d ≠ '-' := by
  interval_cases d <;> decide

theorem parseNatAcc_append (l₁ l₂ : List Char) (acc : Nat) :
    parseNatAcc (l₁ ++ l₂) acc =
      match parseNatAcc l₁ acc with
      | some m => parseNatAcc l₂ m
      | none => none := by
  induction l₁ generalizing acc with
  | nil => rfl
  | cons c t ih =>
    simp only [List.cons_append, parseNatAcc]
    cases digitVal? c with
    | some d => exact ih _
    | none => rfl

theorem natDigitsLEAux_reverse_cons (fuel : Nat) :
    ∀ n, n < fuel →
      ∃ d l, (natDigitsLEAux fuel n).reverse = decDigitChar d :: l ∧ d < 10 := by
  induction fuel with
  | zero => intro n h; omega
  | succ fuel ih =>
    intro n h
    by_cases h10 : n < 10
    · exact ⟨n, [], by simp [natDigitsLEAux, if_pos h10], h10⟩
    · have hlt : n / 10 < n := Nat.div_lt_self (by omega) (by omega)
      obtain ⟨d, l, hdl, hd⟩ := ih (n / 10) (by omega)
      refine ⟨d, l ++ [decDigitChar (n % 10)], ?_, hd⟩
      simp [natDigitsLEAux, if_neg h10, hdl]

theorem natDecimalChars_cons (n : Nat) :
    ∃ d l, natDecimalChars n = decDigitChar d :: l ∧ d < 10 :=
  natDigitsLEAux_reverse_cons (n + 1) n (by omega)

theorem parseNatAcc_natDigitsLEAux (fuel : Nat) :
    ∀ n acc, n < fuel →
      parseNatAcc (natDigitsLEAux fuel n).reverse acc =
        some (acc * 10 ^ (natDigitsLEAux fuel n).length + n) := by
  induction fuel with
  | zero => intro n acc h; omega
  | succ fuel ih =>
    intro n acc h
    by_cases h10 : n < 10
    · simp [natDigitsLEAux, if_pos h10, parseNatAcc, digitVal_decDigitChar n h10]
    · have hlt : n / 10 < n := Nat.div_lt_self (by omega) (by omega)
      simp only [natDigitsLEAux, if_neg h10, List.reverse_cons]
      rw [parseNatAcc_append, ih (n / 10) acc (by omega)]
      simp only [parseNatAcc, digitVal_decDigitChar (n % 10) (Nat.mod_lt n (by omega)),
        List.length_cons]
      congr 1
      have hmod : 10 * (n / 10) + n % 10 = n := by omega
      calc (acc * 10 ^ (natDigitsLEAux fuel (n / 10)).length + n / 10) * 10 + n % 10
          = acc * (10 ^ (natDigitsLEAux fuel (n / 10)).length * 10)
              + (10 * (n / 10) + n % 10) := by ring
        _ = acc * 10 ^ ((natDigitsLEAux fuel (n / 10)).length + 1) + n := by
              rw [hmod, pow_succ]

theorem parseNatChars_natDecimalChars (n : Nat) :
    parseNatChars (natDecimalChars n) = some n := by
  obtain ⟨d, l, hdl, _⟩ := natDecimalChars_cons n
  have h := parseNatAcc_natDigitsLEAux (n + 1) n 0 (by omega)
  have hrw : (natDigitsLEAux (n + 1) n).reverse = natDecimalChars n := rfl
  rw [hrw, hdl] at h
  simp only [Nat.zero_mul, Nat.zero_add] at h
  rw [hdl]
  exact h

theorem parseI32Chars_intDecimalChars (k : Int) :
    parseI32Chars (intDecimalChars k) = if InI32 k then some k else none := by
  by_cases hk : k < 0
  · rw [intDecimalChars, if_pos hk]
    simp only [parseI32Chars]
    rw [if_neg (by decide), if_pos trivial, parseNatChars_natDecimalChars]
    simp only [Option.some_bind]
    by_cases hr : k.natAbs ≤ 2147483648
    · rw [if_pos hr, if_pos (by unfold InI32; omega)]
      congr 1
      omega
    · rw [if_neg hr, if_neg (by unfold InI32; omega)]
  · rw [intDecimalChars, if_neg hk]
    obtain ⟨d, l, hdl, hd⟩ := natDecimalChars_cons k.toNat
    rw [hdl]
    simp only [parseI32Chars]
    rw [if_neg (decDigitChar_ne_plus d hd), if_neg (decDigitChar_ne_minus d hd),
      ← hdl, parseNatChars_natDecimalChars]
    simp only [Option.some_bind]
    by_cases hr : k.toNat ≤ 2147483647
    · rw [if_pos hr, if_pos (by unfold InI32; omega)]
      congr 1
      omega
    · rw [if_neg hr, if_neg (by unfold InI32; omega)]

theorem stripPrefixChars_append (p t : List Char) :
    stripPrefixChars p (p ++ t) = some t := by
  induction p with
  | nil => rfl
  | cons c p ih => simp [stripPrefixChars, ih]

theorem stripSuffixChars_append (t e : List Char) :
    stripSuffixChars e (t ++ e) = some t := by
  unfold stripSuffixChars
  rw [List.reverse_append, stripPrefixChars_append]
  simp

theorem parseDescId_descFor (k : Int) :
    parseDescId (descFor k) = if InI32 k then some k else none := by
  show (stripPrefixChars descPrefixStr.data
      (descPrefixStr.data ++ intDecimalChars k ++ [')'])).bind _ = _
  rw [List.append_assoc, stripPrefixChars_append]
  simp only [Option.some_bind]
  rw [stripSuffixChars_append]
  simp only [Option.some_bind]
  exact parseI32Chars_intDecimalChars k

theorem parseDescId_descFor_of_range {k : Int} (h : InI32 k) :
    parseDescId (descFor k) = some k := by
  rw [parseDescId_descFor, if_pos h]

theorem parseI32Chars_range {l : List Char} {k : Int}
    (h : parseI32Chars l = some k) : InI32 k := by
  rcases l with _ | ⟨c, rest⟩
  · simp [parseI32Chars] at h
  · simp only [parseI32Chars] at h
    split_ifs at h
    · obtain ⟨n, -, hf⟩ := Option.bind_eq_some.mp h
      by_cases hb : n ≤ 2147483647
      · rw [if_pos hb] at hf
        cases hf
        exact ⟨by omega, by omega⟩
      · rw [if_neg hb] at hf
        cases hf
    · obtain ⟨n, -, hf⟩ := Option.bind_eq_some.mp h
      by_cases hb : n ≤ 2147483648
      · rw [if_pos hb] at hf
        cases hf
        exact ⟨by omega, by omega⟩
      · rw [if_neg hb] at hf
        cases hf
    · obtain ⟨n, -, hf⟩ := Option.bind_eq_some.mp h
      by_cases hb : n ≤ 2147483647
      · rw [if_pos hb] at hf
        cases hf
        exact ⟨by omega, by omega⟩
      · rw [if_neg hb] at hf
        cases hf

theorem parseDescId_range {s : String} {k : Int}
    (h : parseDescId s = some k) : InI32 k := by
  unfold parseDescId at h
  obtain ⟨r, -, h⟩ := Option.bind_eq_some.mp h
  obtain ⟨r', -, h⟩ := Option.bind_eq_some.mp h
  exact parseI32Chars_range h

/-! ### Helper lemmas about the store primitives -/

theorem mem_of_getLast?_some {α : Type} {l : List α} {a : α}
    (h : l.getLast? = some a) : a ∈ l := by
  induction l with
  | nil => cases h
  | cons x t ih =>
    cases t with
    | nil =>
      simp only [List.getLast?_singleton, Option.some.injEq] at h
      simp [h]
    | cons y u =>
      rw [List.getLast?_cons_cons] at h
      exact List.mem_cons_of_mem x (ih h)

theorem eq_of_mem_id_nodup :
    ∀ {nodes : List SharedNode},
      (nodes.map fun n => n.id).Nodup →
      ∀ {a b : SharedNode}, a ∈ nodes → b ∈ nodes → a.id = b.id → a = b := by
  intro nodes
  induction nodes with
  | nil => intro _ a b ha; cases ha
  | cons x t ih =>
    intro hnd a b ha hb hid
    simp only [List.map_cons, List.nodup_cons] at hnd
    rcases List.mem_cons.mp ha with h | h <;> rcases List.mem_cons.mp hb with h' | h'
    · rw [h, h']
    · exact absurd (hid ▸ List.mem_map_of_mem (fun n => n.id) h') (h ▸ hnd.1)
    · exact absurd (hid ▸ List.mem_map_of_mem (fun n => n.id) h) (h' ▸ hnd.1)
    · exact ih hnd.2 h h' hid

theorem find?_id_of_nodup :
    ∀ {nodes : List SharedNode},
      (nodes.map fun n => n.id).Nodup →
      ∀ {a : SharedNode}, a ∈ nodes →
      (nodes.find? fun n => n.id = a.id) = some a := by
  intro nodes
  induction nodes with
  | nil => intro _ a ha; cases ha
  | cons x t ih =>
    intro hnd a ha
    simp only [List.map_cons, List.nodup_cons] at hnd
    rcases List.mem_cons.mp ha with h | h
    · rw [h]
      exact List.find?_cons_of_pos t (by simp)
    · have hne : x.id ≠ a.id := by
        intro he
        exact hnd.1 (he ▸ List.mem_map_of_mem (fun n => n.id) h)
      rw [List.find?_cons_of_neg t (by simp [hne])]
      exact ih hnd.2 h

theorem getNodeById_of_mem {db : Db} {a : SharedNode}
    (hWF : db.WF) (ha : a ∈ db.nodes) : getNodeById db a.id = some a :=
  find?_id_of_nodup hWF.1 ha

theorem getNodeById_mem {db : Db} {t : Nat} {a : SharedNode}
    (h : getNodeById db t = some a) : a ∈ db.nodes ∧ a.id = t := by
  refine ⟨List.mem_of_find?_eq_some h, ?_⟩
  have := List.find?_some h
  simpa using this

theorem nodeWithBackendId_some {nodes : List SharedNode} {k : Int}
    {w : SharedNode} (h : nodeWithBackendId nodes k = some w) :
    w ∈ nodes ∧ keyOf w = some k := by
  unfold nodeWithBackendId at h
  have hmem := mem_of_getLast?_some h
  have := List.mem_filter.mp hmem
  refine ⟨this.1, ?_⟩
  simpa using this.2

theorem nodeWithBackendId_none_iff {nodes : List SharedNode} {k : Int} :
    nodeWithBackendId nodes k = none ↔ ∀ n ∈ nodes, keyOf n ≠ some k := by
  unfold nodeWithBackendId
  rw [List.getLast?_eq_none_iff, List.filter_eq_nil_iff]
  simp

theorem nodeWithBackendId_filter_nil {nodes : List SharedNode} {k : Int}
    (h : nodeWithBackendId nodes k = none) :
    (nodes.filter fun n => decide (keyOf n = some k)) = [] := by
  unfold nodeWithBackendId at h
  exact List.getLast?_eq_none_iff.mp h

namespace NodeBin

theorem syncNew_skip (env : SyncEnv) (bp : BackendPeer)
    (h : bp.public_ip = none) : syncNew env bp = env := by
  unfold syncNew
  rw [h]

theorem syncNew_eq (env : SyncEnv) (bp : BackendPeer) {publicIp : String}
    (hip : bp.public_ip = some publicIp) (hWF : env.db.WF) :
    syncNew env bp =
      { db := { nodes := env.db.nodes ++ [newNode env bp publicIp]
                nextId := env.db.nextId + 1 }
        reloads := env.reloads
        metadata := (env.db.nextId, bp) :: env.metadata } := by
  unfold syncNew
  rw [hip]
  simp only [createNode, updateNode]
  congr 1
  congr 1
  rw [List.map_append]
  have h1 : (env.db.nodes.map fun n =>
      if n.id = env.db.nextId then newNode env bp publicIp else n) = env.db.nodes := by
    refine (List.map_congr_left ?_).trans (List.map_id' _)
    intro n hn
    exact if_neg (Nat.ne_of_lt (hWF.2 n hn))
  refine Eq.trans (congrArg₂ _ ?_ ?_) (congrArg₂ _ h1 rfl)
  · rfl
  · simp only [List.map_cons, List.map_nil]
    rw [if_pos trivial]
    rfl

theorem syncExisting_eq (env : SyncEnv) (bp : BackendPeer) {ex : SharedNode}
    (hWF : env.db.WF)
    (hget : getNodeById env.db ex.id = some ex) :
    syncExisting env bp ex =
      { db := { nodes := env.db.nodes.map fun n =>
                  if n.id = ex.id then updExisting bp ex else n
                nextId := env.db.nextId }
        reloads := env.reloads ++
          (if ex.network_secret ≠ bp.network_secret.getD "" then [ex.id] else [])
        metadata := (ex.id, bp) :: env.metadata } := by
  have hexmem : ex ∈ env.db.nodes := (getNodeById_mem hget).1
  by_cases h1 : ex.network_secret ≠ bp.network_secret.getD "" <;>
    by_cases h2 : ex.description ≠ descFor bp.id
  · -- both secret and description differ
    unfold syncExisting
    rw [if_pos (Or.inl h1)]
    simp only [hget, updateNode]
    simp only [if_pos h1, if_pos h2]
    rfl
  · -- only the secret differs
    unfold syncExisting
    rw [if_pos (Or.inl h1)]
    simp only [hget, updateNode]
    simp only [if_pos h1, if_neg h2]
    have hdesc : ex.description = descFor bp.id := not_ne_iff.mp h2
    congr 2
    refine List.map_congr_left fun n hn => ?_
    by_cases hid : n.id = ex.id
    · rw [if_pos hid, if_pos hid]
      unfold updExisting
      rw [hdesc]
    · rw [if_neg hid, if_neg hid]
  · -- only the description differs
    unfold syncExisting
    rw [if_pos (Or.inr h2)]
    simp only [hget, updateNode]
    simp only [if_neg h1, if_pos h2]
    rw [List.append_nil]
    have hsec : ex.network_secret = bp.network_secret.getD "" := not_ne_iff.mp h1
    congr 2
    refine List.map_congr_left fun n hn => ?_
    by_cases hid : n.id = ex.id
    · rw [if_pos hid, if_pos hid]
      unfold updExisting
      rw [hsec]
    · rw [if_neg hid, if_neg hid]
  · -- nothing differs: untouched
    unfold syncExisting
    rw [if_neg (not_or.mpr ⟨h1, h2⟩)]
    have hupd : updExisting bp ex = ex := by
      unfold updExisting
      rw [← not_ne_iff.mp h1, ← not_ne_iff.mp h2]
    have hmap : (env.db.nodes.map fun n =>
        if n.id = ex.id then updExisting bp ex else n) = env.db.nodes := by
      refine (List.map_congr_left ?_).trans (List.map_id' _)
      intro n hn
      by_cases hid : n.id = ex.id
      · rw [if_pos hid, hupd]
        exact (eq_of_mem_id_nodup hWF.1 hexmem hn hid.symm)
      · exact if_neg hid
    rw [hmap, if_neg h1, List.append_nil]

/-! ### Stability of lookups under one step -/

theorem filter_key_mapupd {nodes : List SharedNode} {ex ex' : SharedNode}
    (hnd : (nodes.map fun n => n.id).Nodup) (hexmem : ex ∈ nodes)
    (hkeq : keyOf ex' = keyOf ex) (k : Int) :
    ((nodes.map fun n => if n.id = ex.id then ex' else n).filter
        fun n => decide (keyOf n = some k)) =
      ((nodes.filter fun n => decide (keyOf n = some k)).map
        fun n => if n.id = ex.id then ex' else n) := by
  rw [List.filter_map]
  congr 1
  refine List.filter_congr fun n hn => ?_
  show decide (keyOf (if n.id = ex.id then ex' else n) = some k) = _
  by_cases hid : n.id = ex.id
  · rw [if_pos hid, hkeq,
      eq_of_mem_id_nodup hnd hexmem hn hid.symm]
  · rw [if_neg hid]

theorem lookup_mapupd {nodes : List SharedNode} {ex ex' : SharedNode}
    (hnd : (nodes.map fun n => n.id).Nodup) (hexmem : ex ∈ nodes)
    (_hide : ex'.id = ex.id) (hkeq : keyOf ex' = keyOf ex) (k : Int) :
    nodeWithBackendId (nodes.map fun n => if n.id = ex.id then ex' else n) k =
      (nodeWithBackendId nodes k).map fun n => if n.id = ex.id then ex' else n := by
  unfold nodeWithBackendId
  rw [filter_key_mapupd hnd hexmem hkeq, List.getLast?_map]

theorem lookup_mapupd_other {nodes : List SharedNode} {ex ex' : SharedNode}
    (hnd : (nodes.map fun n => n.id).Nodup) (hexmem : ex ∈ nodes)
    (hide : ex'.id = ex.id) (hkey : keyOf ex = some k₀)
    (hkeq : keyOf ex' = keyOf ex) {k : Int} (hne : k ≠ k₀) :
    nodeWithBackendId (nodes.map fun n => if n.id = ex.id then ex' else n) k =
      nodeWithBackendId nodes k := by
  rw [lookup_mapupd hnd hexmem hide hkeq]
  cases hw : nodeWithBackendId nodes k with
  | none => rfl
  | some w =>
    obtain ⟨hwmem, hwkey⟩ := nodeWithBackendId_some hw
    show some (if w.id = ex.id then ex' else w) = some w
    congr 1
    rw [if_neg]
    intro hidw
    have : w = ex := eq_of_mem_id_nodup hnd hwmem hexmem hidw
    rw [this, hkey] at hwkey
    injection hwkey with hh
    exact hne hh.symm

theorem lookup_append_other {nodes : List SharedNode} {c : SharedNode}
    {k : Int} (hc : keyOf c ≠ some k) :
    nodeWithBackendId (nodes ++ [c]) k = nodeWithBackendId nodes k := by
  unfold nodeWithBackendId
  rw [List.filter_append]
  have : ([c].filter fun n => decide (keyOf n = some k)) = [] := by
    simp [hc]
  rw [this, List.append_nil]

theorem lookup_append_self {nodes : List SharedNode} {c : SharedNode}
    {k : Int} (hc : keyOf c = some k)
    (hnone : nodeWithBackendId nodes k = none) :
    nodeWithBackendId (nodes ++ [c]) k = some c := by
  unfold nodeWithBackendId
  rw [List.filter_append, nodeWithBackendId_filter_nil hnone]
  simp [hc]

theorem find?_id_mapupd {ex' : SharedNode} :
    ∀ (nodes : List SharedNode) {ex : SharedNode} (_ : ex'.id = ex.id) (t : Nat),
      ((nodes.map fun n => if n.id = ex.id then ex' else n).find? fun n => n.id = t)
        = (nodes.find? fun n => n.id = t).map fun n =>
            if n.id = ex.id then ex' else n := by
  intro nodes
  induction nodes with
  | nil => intro ex hide t; rfl
  | cons x l ih =>
    intro ex hide t
    simp only [List.map_cons]
    have hfx : (if x.id = ex.id then ex' else x).id = x.id := by
      by_cases hxe : x.id = ex.id
      · rw [if_pos hxe, hide, hxe]
      · rw [if_neg hxe]
    by_cases hx : x.id = t
    · rw [List.find?_cons_of_pos l (by simp [hx]),
        List.find?_cons_of_pos _ (by rw [hfx]; simp [hx])]
      rfl
    · rw [List.find?_cons_of_neg l (by simp [hx]),
        List.find?_cons_of_neg _ (by rw [hfx]; simp [hx])]
      exact ih hide t

theorem find?_append_some {l₁ l₂ : List SharedNode} {p : SharedNode → Bool}
    {a : SharedNode} (h : l₁.find? p = some a) : (l₁ ++ l₂).find? p = some a := by
  induction l₁ with
  | nil => cases h
  | cons x t ih =>
    cases hx : p x with
    | true =>
      rw [List.find?_cons_of_pos t hx] at h
      rw [List.cons_append, List.find?_cons_of_pos _ hx]
      exact h
    | false =>
      rw [List.find?_cons_of_neg t (by simp [hx])] at h
      rw [List.cons_append, List.find?_cons_of_neg _ (by simp [hx])]
      exact ih h

theorem filterMap_key_mapupd {nodes : List SharedNode} {ex ex' : SharedNode}
    (hnd : (nodes.map fun n => n.id).Nodup) (hexmem : ex ∈ nodes)
    (hkeq : keyOf ex' = keyOf ex) :
    ((nodes.map fun n => if n.id = ex.id then ex' else n).filterMap keyOf)
      = nodes.filterMap keyOf := by
  rw [List.filterMap_map]
  refine List.filterMap_congr fun n hn => ?_
  show keyOf (if n.id = ex.id then ex' else n) = keyOf n
  by_cases hid : n.id = ex.id
  · rw [if_pos hid, hkeq, eq_of_mem_id_nodup hnd hexmem hn hid.symm]
  · rw [if_neg hid]

theorem ids_mapupd {nodes : List SharedNode} {ex ex' : SharedNode}
    (hide : ex'.id = ex.id) :
    ((nodes.map fun n => if n.id = ex.id then ex' else n).map fun n => n.id)
      = nodes.map fun n => n.id := by
  rw [List.map_map]
  refine List.map_congr_left fun n hn => ?_
  show (if n.id = ex.id then ex' else n).id = n.id
  by_cases hid : n.id = ex.id
  · rw [if_pos hid, hide, hid]
  · rw [if_neg hid]

theorem WF_mapupd {db : Db} {ex ex' : SharedNode}
    (hWF : db.WF) (hide : ex'.id = ex.id) (hex : ex.id < db.nextId) :
    Db.WF { db with nodes := db.nodes.map fun n => if n.id = ex.id then ex' else n } := by
  constructor
  · show ((db.nodes.map fun n => if n.id = ex.id then ex' else n).map fun n => n.id).Nodup
    rw [ids_mapupd hide]
    exact hWF.1
  · intro n hn
    obtain ⟨m, hm, hfm⟩ := List.mem_map.mp hn
    subst hfm
    show (if m.id = ex.id then ex' else m).id < db.nextId
    by_cases hid : m.id = ex.id
    · rw [if_pos hid, hide]
      exact hex
    · rw [if_neg hid]
      exact hWF.2 m hm

theorem WF_append {db : Db} {c : SharedNode}
    (hWF : db.WF) (hc : c.id = db.nextId) :
    Db.WF { nodes := db.nodes ++ [c], nextId := db.nextId + 1 } := by
  constructor
  · show ((db.nodes ++ [c]).map fun n => n.id).Nodup
    rw [List.map_append, List.nodup_append]
    refine ⟨hWF.1, by simp, ?_⟩
    intro a ha hb
    simp only [List.map_cons, List.map_nil, List.mem_singleton] at hb
    obtain ⟨m, hm, hfm⟩ := List.mem_map.mp ha
    have := hWF.2 m hm
    omega
  · intro n hn
    rcases List.mem_append.mp hn with h | h
    · have := hWF.2 n h
      show n.id < db.nextId + 1
      omega
    · simp only [List.mem_singleton] at h
      have : n.id = db.nextId := by rw [h, hc]
      show n.id < db.nextId + 1
      omega

/-! ### The master invariant of one reconciliation cycle

One induction over the descriptor list establishes, for a batch with
pairwise-distinct i32 backend ids processed against a well-formed store:
well-formedness is preserved, the id counter only grows, every processed
descriptor's correlation key ends up in the good state, lookups at keys
not processed are untouched, and the multiset of correlation keys grows
exactly by the ids of the descriptors that were created. -/

theorem syncLoop_master (frozen : List SharedNode) :
    ∀ (todo : List BackendPeer) (env : SyncEnv),
      env.db.WF →
      (todo.map fun p => p.id).Nodup →
      (∀ p ∈ todo, InI32 p.id) →
      (∀ p ∈ todo, PendingOK frozen env.db p) →
      (syncLoop frozen env todo).db.WF ∧
      env.db.nextId ≤ (syncLoop frozen env todo).db.nextId ∧
      (∀ p ∈ todo, goodFor (syncLoop frozen env todo).db.nodes p) ∧
      (∀ k : Int, (∀ p ∈ todo, p.id ≠ k) →
        nodeWithBackendId (syncLoop frozen env todo).db.nodes k =
          nodeWithBackendId env.db.nodes k) ∧
      (∃ createdPeers : List BackendPeer,
        createdPeers.Sublist todo ∧
        (∀ c ∈ createdPeers, nodeWithBackendId frozen c.id = none) ∧
        (syncLoop frozen env todo).db.nodes.filterMap keyOf =
          env.db.nodes.filterMap keyOf ++ createdPeers.map fun p => p.id) := by
  intro todo
  induction todo with
  | nil =>
    intro env hWF _ _ _
    exact ⟨hWF, le_refl _, by simp, fun k _ => rfl,
      [], List.nil_sublist _, by simp, by simp [syncLoop]⟩
  | cons bp rest ih =>
    intro env hWF hnd hrange hpend
    simp only [List.map_cons, List.nodup_cons] at hnd
    obtain ⟨hbpid, hndrest⟩ := hnd
    have hrangebp : InI32 bp.id := hrange bp (List.mem_cons_self _ _)
    have hrangerest : ∀ p ∈ rest, InI32 p.id := fun p hp =>
      hrange p (List.mem_cons_of_mem _ hp)
    have hpendbp := hpend bp (List.mem_cons_self _ _)
    have hrestne : ∀ q ∈ rest, q.id ≠ bp.id := by
      intro q hq he
      exact hbpid (he ▸ List.mem_map_of_mem (fun p => p.id) hq)
    cases hfz : nodeWithBackendId frozen bp.id with
    | some ex =>
      simp only [PendingOK, hfz] at hpendbp
      obtain ⟨hcur, hget⟩ := hpendbp
      have hexmem : ex ∈ env.db.nodes := (getNodeById_mem hget).1
      have hkeyex : keyOf ex = some bp.id := (nodeWithBackendId_some hcur).2
      have hexlt : ex.id < env.db.nextId := hWF.2 ex hexmem
      have heq := syncExisting_eq env bp hWF hget
      have hstep : syncLoop frozen env (bp :: rest) =
          syncLoop frozen (syncExisting env bp ex) rest := by
        simp only [syncLoop, syncPeer, hfz]
      have hnodes' : (syncExisting env bp ex).db.nodes =
          env.db.nodes.map fun n => if n.id = ex.id then updExisting bp ex else n := by
        rw [heq]
      have hnext' : (syncExisting env bp ex).db.nextId = env.db.nextId := by
        rw [heq]
      have hkeq : keyOf (updExisting bp ex) = keyOf ex := by
        rw [hkeyex]
        show parseDescId (descFor bp.id) = some bp.id
        exact parseDescId_descFor_of_range hrangebp
      have hWF' : (syncExisting env bp ex).db.WF := by
        rw [heq]
        exact WF_mapupd hWF (show (updExisting bp ex).id = ex.id from rfl) hexlt
      have hstab : ∀ k : Int, k ≠ bp.id →
          nodeWithBackendId (syncExisting env bp ex).db.nodes k =
            nodeWithBackendId env.db.nodes k := by
        intro k hk
        rw [hnodes']
        exact lookup_mapupd_other hWF.1 hexmem
          (show (updExisting bp ex).id = ex.id from rfl) hkeyex hkeq hk
      have hself : nodeWithBackendId (syncExisting env bp ex).db.nodes bp.id =
          some (updExisting bp ex) := by
        rw [hnodes', lookup_mapupd hWF.1 hexmem
          (show (updExisting bp ex).id = ex.id from rfl) hkeq, hcur]
        show some (if ex.id = ex.id then updExisting bp ex else ex) = _
        rw [if_pos rfl]
      have hpend' : ∀ q ∈ rest, PendingOK frozen (syncExisting env bp ex).db q := by
        intro q hq
        have hqne : q.id ≠ bp.id := hrestne q hq
        have hqp := hpend q (List.mem_cons_of_mem _ hq)
        cases hfzq : nodeWithBackendId frozen q.id with
        | some exq =>
          simp only [PendingOK, hfzq] at hqp ⊢
          obtain ⟨hcurq, hgetq⟩ := hqp
          have hexqmem : exq ∈ env.db.nodes := (getNodeById_mem hgetq).1
          have hkeyq : keyOf exq = some q.id := (nodeWithBackendId_some hcurq).2
          have hexqne : exq.id ≠ ex.id := by
            intro he
            have hqe : exq = ex := eq_of_mem_id_nodup hWF.1 hexqmem hexmem he
            rw [hqe, hkeyex] at hkeyq
            injection hkeyq with hh
            exact hqne hh.symm
          refine ⟨by rw [hstab q.id hqne]; exact hcurq, ?_⟩
          show getNodeById (syncExisting env bp ex).db exq.id = some exq
          unfold getNodeById
          rw [hnodes', find?_id_mapupd _
            (show (updExisting bp ex).id = ex.id from rfl) exq.id]
          rw [show (env.db.nodes.find? fun n => n.id = exq.id) = some exq from hgetq]
          show some (if exq.id = ex.id then updExisting bp ex else exq) = some exq
          rw [if_neg hexqne]
        | none =>
          simp only [PendingOK, hfzq] at hqp ⊢
          rw [hstab q.id hqne]
          exact hqp
      obtain ⟨ihWF, ihnext, ihgood, ihstab, created, hsub, hcrnone, hkeys⟩ :=
        ih (syncExisting env bp ex) hWF' hndrest hrangerest hpend'
      rw [hstep]
      refine ⟨ihWF, ?_, ?_, ?_, created, hsub.cons bp, hcrnone, ?_⟩
      · rw [← hnext']
        exact ihnext
      · intro p hp
        rcases List.mem_cons.mp hp with hpb | hpr
        · subst hpb
          have hlk : nodeWithBackendId
              (syncLoop frozen (syncExisting env p ex) rest).db.nodes p.id =
              some (updExisting p ex) := by
            rw [ihstab p.id (hrestne)]
            exact hself
          simp only [goodFor, hlk]
          exact ⟨rfl, rfl⟩
        · exact ihgood p hpr
      · intro k hk
        rw [ihstab k (fun q hq => hk q (List.mem_cons_of_mem _ hq)),
          hstab k (Ne.symm (hk bp (List.mem_cons_self _ _)))]
      · rw [hkeys, hnodes', filterMap_key_mapupd hWF.1 hexmem hkeq]
    | none =>
      simp only [PendingOK, hfz] at hpendbp
      cases hip : bp.public_ip with
      | none =>
        have hstep : syncLoop frozen env (bp :: rest) = syncLoop frozen env rest := by
          simp only [syncLoop, syncPeer, hfz, syncNew_skip env bp hip]
        obtain ⟨ihWF, ihnext, ihgood, ihstab, created, hsub, hcrnone, hkeys⟩ :=
          ih env hWF hndrest hrangerest
            (fun q hq => hpend q (List.mem_cons_of_mem _ hq))
        rw [hstep]
        refine ⟨ihWF, ihnext, ?_, ?_, created, hsub.cons bp, hcrnone, hkeys⟩
        · intro p hp
          rcases List.mem_cons.mp hp with hpb | hpr
          · subst hpb
            have hlk : nodeWithBackendId (syncLoop frozen env rest).db.nodes p.id =
                none := by
              rw [ihstab p.id (hrestne)]
              exact hpendbp
            simp only [goodFor, hlk]
            exact hip
          · exact ihgood p hpr
        · intro k hk
          exact ihstab k (fun q hq => hk q (List.mem_cons_of_mem _ hq))
      | some publicIp =>
        have heq := syncNew_eq env bp hip hWF
        have hstep : syncLoop frozen env (bp :: rest) =
            syncLoop frozen (syncNew env bp) rest := by
          simp only [syncLoop, syncPeer, hfz]
        have hnodes' : (syncNew env bp).db.nodes =
            env.db.nodes ++ [newNode env bp publicIp] := by
          rw [heq]
        have hnext' : (syncNew env bp).db.nextId = env.db.nextId + 1 := by
          rw [heq]
        have hkeyc : keyOf (newNode env bp publicIp) = some bp.id := by
          show parseDescId (descFor bp.id) = some bp.id
          exact parseDescId_descFor_of_range hrangebp
        have hWF' : (syncNew env bp).db.WF := by
          rw [heq]
          exact WF_append hWF rfl
        have hstab : ∀ k : Int, k ≠ bp.id →
            nodeWithBackendId (syncNew env bp).db.nodes k =
              nodeWithBackendId env.db.nodes k := by
          intro k hk
          rw [hnodes']
          refine lookup_append_other ?_
          rw [hkeyc]
          intro hc
          injection hc with hh
          exact hk hh.symm
        have hself : nodeWithBackendId (syncNew env bp).db.nodes bp.id =
            some (newNode env bp publicIp) := by
          rw [hnodes']
          exact lookup_append_self hkeyc hpendbp
        have hpend' : ∀ q ∈ rest, PendingOK frozen (syncNew env bp).db q := by
          intro q hq
          have hqne : q.id ≠ bp.id := hrestne q hq
          have hqp := hpend q (List.mem_cons_of_mem _ hq)
          cases hfzq : nodeWithBackendId frozen q.id with
          | some exq =>
            simp only [PendingOK, hfzq] at hqp ⊢
            obtain ⟨hcurq, hgetq⟩ := hqp
            refine ⟨by rw [hstab q.id hqne]; exact hcurq, ?_⟩
            show getNodeById (syncNew env bp).db exq.id = some exq
            unfold getNodeById
            rw [hnodes']
            exact find?_append_some hgetq
          | none =>
            simp only [PendingOK, hfzq] at hqp ⊢
            rw [hstab q.id hqne]
            exact hqp
        obtain ⟨ihWF, ihnext, ihgood, ihstab, created, hsub, hcrnone, hkeys⟩ :=
          ih (syncNew env bp) hWF' hndrest hrangerest hpend'
        rw [hstep]
        refine ⟨ihWF, ?_, ?_, ?_, bp :: created, hsub.cons₂ bp, ?_, ?_⟩
        · rw [hnext'] at ihnext
          omega
        · intro p hp
          rcases List.mem_cons.mp hp with hpb | hpr
          · subst hpb
            have hlk : nodeWithBackendId
                (syncLoop frozen (syncNew env p) rest).db.nodes p.id =
                some (newNode env p publicIp) := by
              rw [ihstab p.id (hrestne)]
              exact hself
            simp only [goodFor, hlk]
            exact ⟨rfl, rfl⟩
          · exact ihgood p hpr
        · intro k hk
          rw [ihstab k (fun q hq => hk q (List.mem_cons_of_mem _ hq)),
            hstab k (Ne.symm (hk bp (List.mem_cons_self _ _)))]
        · intro c hc
          rcases List.mem_cons.mp hc with hcb | hcr
          · rw [hcb]
            exact hfz
          · exact hcrnone c hcr
        · rw [hkeys, hnodes', List.filterMap_append]
          have hone : ([newNode env bp publicIp].filterMap keyOf) = [bp.id] := by
            simp [hkeyc]
          rw [hone, List.map_cons, List.append_assoc]
          rfl

/-- Initially every descriptor is pending against the store the frozen map
was built from. -/
theorem PendingOK_init {db : Db} (hWF : db.WF) (p : BackendPeer) :
    PendingOK db.nodes db p := by
  unfold PendingOK
  cases hfz : nodeWithBackendId db.nodes p.id with
  | some ex =>
    exact ⟨rfl, getNodeById_of_mem hWF (nodeWithBackendId_some hfz).1⟩
  | none => exact rfl

/-- A cycle whose every descriptor already finds its key in the good state
performs no store write and emits no reload signal. -/
theorem syncLoop_noop (frozen : List SharedNode) :
    ∀ (todo : List BackendPeer) (env : SyncEnv),
      (∀ p ∈ todo, goodFor frozen p) →
      (syncLoop frozen env todo).db = env.db ∧
      (syncLoop frozen env todo).reloads = env.reloads := by
  intro todo
  induction todo with
  | nil => intro env _; exact ⟨rfl, rfl⟩
  | cons bp rest ih =>
    intro env hgood
    have hgoodbp := hgood bp (List.mem_cons_self _ _)
    have hgoodrest : ∀ p ∈ rest, goodFor frozen p := fun p hp =>
      hgood p (List.mem_cons_of_mem _ hp)
    cases hfz : nodeWithBackendId frozen bp.id with
    | some ex =>
      simp only [goodFor, hfz] at hgoodbp
      have hstep : syncPeer frozen env bp =
          { env with metadata := (ex.id, bp) :: env.metadata } := by
        simp only [syncPeer, hfz]
        unfold syncExisting
        rw [if_neg (not_or.mpr ⟨not_ne_iff.mpr hgoodbp.1, not_ne_iff.mpr hgoodbp.2⟩)]
      have hloop : syncLoop frozen env (bp :: rest) =
          syncLoop frozen (syncPeer frozen env bp) rest := rfl
      rw [hloop, hstep]
      exact ih _ hgoodrest
    | none =>
      simp only [goodFor, hfz] at hgoodbp
      have hstep : syncPeer frozen env bp = env := by
        simp only [syncPeer, hfz]
        exact syncNew_skip env bp hgoodbp
      have hloop : syncLoop frozen env (bp :: rest) =
          syncLoop frozen (syncPeer frozen env bp) rest := rfl
      rw [hloop, hstep]
      exact ih _ hgoodrest

/-! ### Unconditional monotonicity: records are never deleted -/

theorem syncExisting_nodes_cases (env : SyncEnv) (bp : BackendPeer)
    (ex : SharedNode) :
    (syncExisting env bp ex).db.nodes = env.db.nodes ∨
    ∃ n', (syncExisting env bp ex).db.nodes =
      env.db.nodes.map fun n => if n.id = n'.id then n' else n := by
  unfold syncExisting
  by_cases hcond : ex.network_secret ≠ bp.network_secret.getD "" ∨
      ex.description ≠ descFor bp.id
  · rw [if_pos hcond]
    have hdb1 : ({ env with metadata := (ex.id, bp) :: env.metadata } : SyncEnv).db
        = env.db := rfl
    rw [hdb1]
    cases hget : getNodeById env.db ex.id with
    | none => exact Or.inl rfl
    | some node =>
      refine Or.inr ⟨{ node with
        network_secret := if ex.network_secret ≠ bp.network_secret.getD ""
          then bp.network_secret.getD "" else node.network_secret
        description := if ex.description ≠ descFor bp.id
          then descFor bp.id else node.description }, ?_⟩
      simp only []
      split <;> rfl
  · rw [if_neg hcond]
    exact Or.inl rfl


theorem mono_of_mapupd {nodes : List SharedNode} (n' : SharedNode)
    {n : SharedNode} (hn : n ∈ nodes) :
    ∃ m, m ∈ (nodes.map fun x => if x.id = n'.id then n' else x) ∧ m.id = n.id := by
  refine ⟨if n.id = n'.id then n' else n,
    List.mem_map_of_mem (fun x => if x.id = n'.id then n' else x) hn, ?_⟩
  by_cases hid : n.id = n'.id
  · rw [if_pos hid]
    exact hid.symm
  · rw [if_neg hid]

theorem syncNew_mono (env : SyncEnv) (bp : BackendPeer) :
    env.db.nodes.length ≤ (syncNew env bp).db.nodes.length ∧
    ∀ n ∈ env.db.nodes, ∃ m, m ∈ (syncNew env bp).db.nodes ∧ m.id = n.id := by
  unfold syncNew
  cases hip : bp.public_ip with
  | none => exact ⟨le_refl _, fun n hn => ⟨n, hn, rfl⟩⟩
  | some publicIp =>
    simp only [createNode, updateNode]
    constructor
    · simp only [List.length_map, List.length_append, List.length_cons,
        List.length_nil]
      omega
    · intro n hn
      exact mono_of_mapupd
        ({ id := env.db.nextId, name := bp.name, host := (parsePublicIp publicIp).1,
           port := (parsePublicIp publicIp).2, protocol := bp.protocol.getD "tcp",
           description := (some (descFor bp.id)).getD "", max_connections := 100,
           allow_relay := bp.allow_relay.getD true,
           network_name := bp.network_name.getD "default",
           network_secret := bp.network_secret.getD "", is_approved := true } : SharedNode)
        (List.mem_append_left _ hn)

theorem syncPeer_mono (frozen : List SharedNode) (env : SyncEnv)
    (bp : BackendPeer) :
    env.db.nodes.length ≤ (syncPeer frozen env bp).db.nodes.length ∧
    ∀ n ∈ env.db.nodes,
      ∃ m, m ∈ (syncPeer frozen env bp).db.nodes ∧ m.id = n.id := by
  unfold syncPeer
  cases hfz : nodeWithBackendId frozen bp.id with
  | some ex =>
    rcases syncExisting_nodes_cases env bp ex with h | ⟨n', h⟩
    · rw [h]
      exact ⟨le_refl _, fun n hn => ⟨n, hn, rfl⟩⟩
    · rw [h]
      exact ⟨by simp, fun n hn => mono_of_mapupd n' hn⟩
  | none => exact syncNew_mono env bp

theorem syncLoop_mono (frozen : List SharedNode) :
    ∀ (todo : List BackendPeer) (env : SyncEnv),
      env.db.nodes.length ≤ (syncLoop frozen env todo).db.nodes.length ∧
      ∀ n ∈ env.db.nodes,
        ∃ m, m ∈ (syncLoop frozen env todo).db.nodes ∧ m.id = n.id := by
  intro todo
  induction todo with
  | nil => intro env; exact ⟨le_refl _, fun n hn => ⟨n, hn, rfl⟩⟩
  | cons bp rest ih =>
    intro env
    have hstep := syncPeer_mono frozen env bp
    have hrest := ih (syncPeer frozen env bp)
    have hloop : syncLoop frozen env (bp :: rest) =
        syncLoop frozen (syncPeer frozen env bp) rest := rfl
    rw [hloop]
    refine ⟨le_trans hstep.1 hrest.1, fun n hn => ?_⟩
    obtain ⟨m, hm, hmid⟩ := hstep.2 n hn
    obtain ⟨m', hm', hmid'⟩ := hrest.2 m hm
    exact ⟨m', hm', hmid'.trans hmid⟩

theorem reportRetryGo_attempts_ge (outcome : Nat → Except String Unit) :
    ∀ (fuel retryCount : Nat),
      retryCount + 1 ≤ (reportRetryGo outcome retryCount fuel).1 := by
  intro fuel
  induction fuel with
  | zero => intro rc; exact le_refl _
  | succ fuel ih =>
    intro rc
    unfold reportRetryGo
    cases outcome rc with
    | ok u => exact le_refl _
    | error e =>
      simp only []
      by_cases ha : isAuthError e
      · rw [if_pos ha]
      · rw [if_neg ha]
        by_cases hf : fuel = 0
        · rw [if_pos hf]
        · rw [if_neg hf]
          have := ih (rc + 1)
          simp only []
          omega

end NodeBin

namespace DistProbe

theorem syncNew_skip_dist (env : DSyncEnv) (bp : BackendPeer)
    (h : bp.public_ip = none) : syncNew env bp = env := by
  unfold syncNew
  rw [h]

theorem syncExisting_nodes_cases_dist (env : DSyncEnv) (bp : BackendPeer)
    (ex : SharedNode) :
    (syncExisting env bp ex).db.nodes = env.db.nodes ∨
    ∃ n', (syncExisting env bp ex).db.nodes =
      env.db.nodes.map fun n => if n.id = n'.id then n' else n := by
  unfold syncExisting
  by_cases hcond : ex.name ≠ bp.name ∨
      ex.network_name ≠ bp.network_name.getD "default" ∨
      ex.network_secret ≠ bp.network_secret.getD ""
  · rw [if_pos hcond]
    cases hget : getNodeById env.db ex.id with
    | none => exact Or.inl rfl
    | some node =>
      exact Or.inr ⟨{ node with
        name := bp.name
        network_name := bp.network_name.getD "default"
        network_secret := bp.network_secret.getD "" }, rfl⟩
  · rw [if_neg hcond]
    exact Or.inl rfl

theorem syncNew_mono_dist (env : DSyncEnv) (bp : BackendPeer) :
    env.db.nodes.length ≤ (syncNew env bp).db.nodes.length ∧
    ∀ n ∈ env.db.nodes, ∃ m, m ∈ (syncNew env bp).db.nodes ∧ m.id = n.id := by
  unfold syncNew
  cases hip : bp.public_ip with
  | none => exact ⟨le_refl _, fun n hn => ⟨n, hn, rfl⟩⟩
  | some publicIp =>
    simp only [createNode, updateNode]
    constructor
    · simp only [List.length_map, List.length_append, List.length_cons,
        List.length_nil]
      omega
    · intro n hn
      exact NodeBin.mono_of_mapupd
        ({ id := env.db.nextId, name := bp.name, host := (parsePublicIp publicIp).1,
           port := (parsePublicIp publicIp).2, protocol := bp.protocol.getD "tcp",
           description := (some (descFor bp.id)).getD "", max_connections := 100,
           allow_relay := bp.allow_relay.getD true,
           network_name := bp.network_name.getD "default",
           network_secret := bp.network_secret.getD "", is_approved := true } : SharedNode)
        (List.mem_append_left _ hn)

theorem syncPeer_mono_dist (frozen : List SharedNode) (env : DSyncEnv)
    (bp : BackendPeer) :
    env.db.nodes.length ≤ (syncPeer frozen env bp).db.nodes.length ∧
    ∀ n ∈ env.db.nodes,
      ∃ m, m ∈ (syncPeer frozen env bp).db.nodes ∧ m.id = n.id := by
  unfold syncPeer
  cases hfz : nodeWithBackendId frozen bp.id with
  | some ex =>
    rcases syncExisting_nodes_cases_dist env bp ex with h | ⟨n', h⟩
    · rw [h]
      exact ⟨le_refl _, fun n hn => ⟨n, hn, rfl⟩⟩
    · rw [h]
      exact ⟨by simp, fun n hn => NodeBin.mono_of_mapupd n' hn⟩
  | none => exact syncNew_mono_dist env bp

theorem syncLoop_mono_dist (frozen : List SharedNode) :
    ∀ (todo : List BackendPeer) (env : DSyncEnv),
      env.db.nodes.length ≤ (syncLoop frozen env todo).db.nodes.length ∧
      ∀ n ∈ env.db.nodes,
        ∃ m, m ∈ (syncLoop frozen env todo).db.nodes ∧ m.id = n.id := by
  intro todo
  induction todo with
  | nil => intro env; exact ⟨le_refl _, fun n hn => ⟨n, hn, rfl⟩⟩
  | cons bp rest ih =>
    intro env
    have hstep := syncPeer_mono_dist frozen env bp
    have hrest := ih (syncPeer frozen env bp)
    have hloop : syncLoop frozen env (bp :: rest) =
        syncLoop frozen (syncPeer frozen env bp) rest := rfl
    rw [hloop]
    refine ⟨le_trans hstep.1 hrest.1, fun n hn => ?_⟩
    obtain ⟨m, hm, hmid⟩ := hstep.2 n hn
    obtain ⟨m', hm', hmid'⟩ := hrest.2 m hm
    exact ⟨m', hm', hmid'.trans hmid⟩

/-! ### Step equations and idempotence of the variant reconciler -/

theorem syncNew_eq_dist (env : DSyncEnv) (bp : BackendPeer) {publicIp : String}
    (hip : bp.public_ip = some publicIp) (hWF : env.db.WF) :
    syncNew env bp =
      { db := { nodes := env.db.nodes ++ [newNodeD env bp publicIp]
                nextId := env.db.nextId + 1 }
        reloads := env.reloads } := by
  unfold syncNew
  rw [hip]
  simp only [createNode, updateNode]
  congr 1
  congr 1
  rw [List.map_append]
  have h1 : (env.db.nodes.map fun n =>
      if n.id = env.db.nextId then newNodeD env bp publicIp else n)
        = env.db.nodes := by
    refine (List.map_congr_left ?_).trans (List.map_id' _)
    intro n hn
    exact if_neg (Nat.ne_of_lt (hWF.2 n hn))
  refine Eq.trans (congrArg₂ _ ?_ ?_) (congrArg₂ _ h1 rfl)
  · rfl
  · simp only [List.map_cons, List.map_nil]
    rw [if_pos trivial]
    rfl

theorem syncExisting_eq_dist (env : DSyncEnv) (bp : BackendPeer)
    {ex : SharedNode}
    (hWF : env.db.WF) (hget : getNodeById env.db ex.id = some ex) :
    syncExisting env bp ex =
      { db := { nodes := env.db.nodes.map fun n =>
                  if n.id = ex.id then updExistingD bp ex else n
                nextId := env.db.nextId }
        reloads := env.reloads ++
          (if ex.name ≠ bp.name ∨
              ex.network_name ≠ bp.network_name.getD "default" ∨
              ex.network_secret ≠ bp.network_secret.getD ""
            then [ex.id] else []) } := by
  have hexmem : ex ∈ env.db.nodes := (getNodeById_mem hget).1
  by_cases hcond : ex.name ≠ bp.name ∨
      ex.network_name ≠ bp.network_name.getD "default" ∨
      ex.network_secret ≠ bp.network_secret.getD ""
  · unfold syncExisting
    rw [if_pos hcond]
    simp only [hget]
    rw [if_pos hcond]
    rfl
  · unfold syncExisting
    rw [if_neg hcond, if_neg hcond, List.append_nil]
    have hcond' := hcond
    push_neg at hcond'
    obtain ⟨h1, h2, h3⟩ := hcond'
    have hupd : updExistingD bp ex = ex := by
      unfold updExistingD
      rw [← h1, ← h2, ← h3]
    have hmap : (env.db.nodes.map fun n =>
        if n.id = ex.id then updExistingD bp ex else n) = env.db.nodes := by
      refine (List.map_congr_left ?_).trans (List.map_id' _)
      intro n hn
      by_cases hid : n.id = ex.id
      · rw [if_pos hid, hupd]
        exact (eq_of_mem_id_nodup hWF.1 hexmem hn hid.symm)
      · exact if_neg hid
    rw [hmap]

theorem syncLoop_master_dist (frozen : List SharedNode) :
    ∀ (todo : List BackendPeer) (env : DSyncEnv),
      env.db.WF →
      (todo.map fun p => p.id).Nodup →
      (∀ p ∈ todo, InI32 p.id) →
      (∀ p ∈ todo, PendingOK frozen env.db p) →
      (syncLoop frozen env todo).db.WF ∧
      (∀ p ∈ todo, goodForD (syncLoop frozen env todo).db.nodes p) ∧
      (∀ k : Int, (∀ p ∈ todo, p.id ≠ k) →
        nodeWithBackendId (syncLoop frozen env todo).db.nodes k =
          nodeWithBackendId env.db.nodes k) := by
  intro todo
  induction todo with
  | nil =>
    intro env hWF _ _ _
    exact ⟨hWF, by simp, fun k _ => rfl⟩
  | cons bp rest ih =>
    intro env hWF hnd hrange hpend
    simp only [List.map_cons, List.nodup_cons] at hnd
    obtain ⟨hbpid, hndrest⟩ := hnd
    have hrangebp : InI32 bp.id := hrange bp (List.mem_cons_self _ _)
    have hrangerest : ∀ p ∈ rest, InI32 p.id := fun p hp =>
      hrange p (List.mem_cons_of_mem _ hp)
    have hpendbp := hpend bp (List.mem_cons_self _ _)
    have hrestne : ∀ q ∈ rest, q.id ≠ bp.id := by
      intro q hq he
      exact hbpid (he ▸ List.mem_map_of_mem (fun p => p.id) hq)
    cases hfz : nodeWithBackendId frozen bp.id with
    | some ex =>
      simp only [PendingOK, hfz] at hpendbp
      obtain ⟨hcur, hget⟩ := hpendbp
      have hexmem : ex ∈ env.db.nodes := (getNodeById_mem hget).1
      have hkeyex : keyOf ex = some bp.id := (nodeWithBackendId_some hcur).2
      have hexlt : ex.id < env.db.nextId := hWF.2 ex hexmem
      have heq := @syncExisting_eq_dist env bp ex hWF hget
      have hstep : syncLoop frozen env (bp :: rest) =
          syncLoop frozen (syncExisting env bp ex) rest := by
        simp only [syncLoop, syncPeer, hfz]
      have hnodes' : (syncExisting env bp ex).db.nodes =
          env.db.nodes.map fun n =>
            if n.id = ex.id then updExistingD bp ex else n := by
        rw [heq]
      have hkeq : keyOf (updExistingD bp ex) = keyOf ex := rfl
      have hWF' : (syncExisting env bp ex).db.WF := by
        rw [heq]
        exact NodeBin.WF_mapupd hWF
          (show (updExistingD bp ex).id = ex.id from rfl) hexlt
      have hstab : ∀ k : Int, k ≠ bp.id →
          nodeWithBackendId (syncExisting env bp ex).db.nodes k =
            nodeWithBackendId env.db.nodes k := by
        intro k hk
        rw [hnodes']
        exact NodeBin.lookup_mapupd_other hWF.1 hexmem
          (show (updExistingD bp ex).id = ex.id from rfl) hkeyex hkeq hk
      have hself : nodeWithBackendId (syncExisting env bp ex).db.nodes bp.id =
          some (updExistingD bp ex) := by
        rw [hnodes', NodeBin.lookup_mapupd hWF.1 hexmem
          (show (updExistingD bp ex).id = ex.id from rfl) hkeq, hcur]
        show some (if ex.id = ex.id then updExistingD bp ex else ex) = _
        rw [if_pos rfl]
      have hpend' : ∀ q ∈ rest, PendingOK frozen (syncExisting env bp ex).db q := by
        intro q hq
        have hqne : q.id ≠ bp.id := hrestne q hq
        have hqp := hpend q (List.mem_cons_of_mem _ hq)
        cases hfzq : nodeWithBackendId frozen q.id with
        | some exq =>
          simp only [PendingOK, hfzq] at hqp ⊢
          obtain ⟨hcurq, hgetq⟩ := hqp
          have hexqmem : exq ∈ env.db.nodes := (getNodeById_mem hgetq).1
          have hkeyq : keyOf exq = some q.id := (nodeWithBackendId_some hcurq).2
          have hexqne : exq.id ≠ ex.id := by
            intro he
            have hqe : exq = ex := eq_of_mem_id_nodup hWF.1 hexqmem hexmem he
            rw [hqe, hkeyex] at hkeyq
            injection hkeyq with hh
            exact hqne hh.symm
          refine ⟨by rw [hstab q.id hqne]; exact hcurq, ?_⟩
          show getNodeById (syncExisting env bp ex).db exq.id = some exq
          unfold getNodeById
          rw [hnodes', @NodeBin.find?_id_mapupd (updExistingD bp ex) env.db.nodes
            ex (show (updExistingD bp ex).id = ex.id from rfl) exq.id]
          rw [show (env.db.nodes.find? fun n => n.id = exq.id) = some exq from hgetq]
          show some (if exq.id = ex.id then updExistingD bp ex else exq) = some exq
          rw [if_neg hexqne]
        | none =>
          simp only [PendingOK, hfzq] at hqp ⊢
          rw [hstab q.id hqne]
          exact hqp
      obtain ⟨ihWF, ihgood, ihstab⟩ :=
        ih (syncExisting env bp ex) hWF' hndrest hrangerest hpend'
      rw [hstep]
      refine ⟨ihWF, ?_, ?_⟩
      · intro p hp
        rcases List.mem_cons.mp hp with hpb | hpr
        · subst hpb
          have hlk : nodeWithBackendId
              (syncLoop frozen (syncExisting env p ex) rest).db.nodes p.id =
              some (updExistingD p ex) := by
            rw [ihstab p.id (hrestne)]
            exact hself
          simp only [goodForD, hlk]
          exact ⟨rfl, rfl, rfl⟩
        · exact ihgood p hpr
      · intro k hk
        rw [ihstab k (fun q hq => hk q (List.mem_cons_of_mem _ hq)),
          hstab k (Ne.symm (hk bp (List.mem_cons_self _ _)))]
    | none =>
      simp only [PendingOK, hfz] at hpendbp
      cases hip : bp.public_ip with
      | none =>
        have hstep : syncLoop frozen env (bp :: rest) = syncLoop frozen env rest := by
          simp only [syncLoop, syncPeer, hfz, syncNew_skip_dist env bp hip]
        obtain ⟨ihWF, ihgood, ihstab⟩ :=
          ih env hWF hndrest hrangerest
            (fun q hq => hpend q (List.mem_cons_of_mem _ hq))
        rw [hstep]
        refine ⟨ihWF, ?_, ?_⟩
        · intro p hp
          rcases List.mem_cons.mp hp with hpb | hpr
          · subst hpb
            have hlk : nodeWithBackendId (syncLoop frozen env rest).db.nodes p.id
                = none := by
              rw [ihstab p.id (hrestne)]
              exact hpendbp
            simp only [goodForD, hlk]
            exact hip
          · exact ihgood p hpr
        · intro k hk
          exact ihstab k (fun q hq => hk q (List.mem_cons_of_mem _ hq))
      | some publicIp =>
        have heq := syncNew_eq_dist env bp hip hWF
        have hstep : syncLoop frozen env (bp :: rest) =
            syncLoop frozen (syncNew env bp) rest := by
          simp only [syncLoop, syncPeer, hfz]
        have hnodes' : (syncNew env bp).db.nodes =
            env.db.nodes ++ [newNodeD env bp publicIp] := by
          rw [heq]
        have hkeyc : keyOf (newNodeD env bp publicIp) = some bp.id := by
          show parseDescId (descFor bp.id) = some bp.id
          exact parseDescId_descFor_of_range hrangebp
        have hWF' : (syncNew env bp).db.WF := by
          rw [heq]
          exact NodeBin.WF_append hWF rfl
        have hstab : ∀ k : Int, k ≠ bp.id →
            nodeWithBackendId (syncNew env bp).db.nodes k =
              nodeWithBackendId env.db.nodes k := by
          intro k hk
          rw [hnodes']
          refine NodeBin.lookup_append_other ?_
          rw [hkeyc]
          intro hc
          injection hc with hh
          exact hk hh.symm
        have hself : nodeWithBackendId (syncNew env bp).db.nodes bp.id =
            some (newNodeD env bp publicIp) := by
          rw [hnodes']
          exact NodeBin.lookup_append_self hkeyc hpendbp
        have hpend' : ∀ q ∈ rest, PendingOK frozen (syncNew env bp).db q := by
          intro q hq
          have hqne : q.id ≠ bp.id := hrestne q hq
          have hqp := hpend q (List.mem_cons_of_mem _ hq)
          cases hfzq : nodeWithBackendId frozen q.id with
          | some exq =>
            simp only [PendingOK, hfzq] at hqp ⊢
            obtain ⟨hcurq, hgetq⟩ := hqp
            refine ⟨by rw [hstab q.id hqne]; exact hcurq, ?_⟩
            show getNodeById (syncNew env bp).db exq.id = some exq
            unfold getNodeById
            rw [hnodes']
            exact NodeBin.find?_append_some hgetq
          | none =>
            simp only [PendingOK, hfzq] at hqp ⊢
            rw [hstab q.id hqne]
            exact hqp
        obtain ⟨ihWF, ihgood, ihstab⟩ :=
          ih (syncNew env bp) hWF' hndrest hrangerest hpend'
        rw [hstep]
        refine ⟨ihWF, ?_, ?_⟩
        · intro p hp
          rcases List.mem_cons.mp hp with hpb | hpr
          · subst hpb
            have hlk : nodeWithBackendId
                (syncLoop frozen (syncNew env p) rest).db.nodes p.id =
                some (newNodeD env p publicIp) := by
              rw [ihstab p.id (hrestne)]
              exact hself
            simp only [goodForD, hlk]
            exact ⟨rfl, rfl, rfl⟩
          · exact ihgood p hpr
        · intro k hk
          rw [ihstab k (fun q hq => hk q (List.mem_cons_of_mem _ hq)),
            hstab k (Ne.symm (hk bp (List.mem_cons_self _ _)))]

theorem syncLoop_noop_dist (frozen : List SharedNode) :
    ∀ (todo : List BackendPeer) (env : DSyncEnv),
      (∀ p ∈ todo, goodForD frozen p) →
      (syncLoop frozen env todo).db = env.db ∧
      (syncLoop frozen env todo).reloads = env.reloads := by
  intro todo
  induction todo with
  | nil => intro env _; exact ⟨rfl, rfl⟩
  | cons bp rest ih =>
    intro env hgood
    have hgoodbp := hgood bp (List.mem_cons_self _ _)
    have hgoodrest : ∀ p ∈ rest, goodForD frozen p := fun p hp =>
      hgood p (List.mem_cons_of_mem _ hp)
    cases hfz : nodeWithBackendId frozen bp.id with
    | some ex =>
      simp only [goodForD, hfz] at hgoodbp
      have hstep : syncPeer frozen env bp = env := by
        simp only [syncPeer, hfz]
        unfold syncExisting
        rw [if_neg (not_or.mpr ⟨not_ne_iff.mpr hgoodbp.1,
          not_or.mpr ⟨not_ne_iff.mpr hgoodbp.2.1, not_ne_iff.mpr hgoodbp.2.2⟩⟩)]
      have hloop : syncLoop frozen env (bp :: rest) =
          syncLoop frozen (syncPeer frozen env bp) rest := rfl
      rw [hloop, hstep]
      exact ih _ hgoodrest
    | none =>
      simp only [goodForD, hfz] at hgoodbp
      have hstep : syncPeer frozen env bp = env := by
        simp only [syncPeer, hfz]
        exact syncNew_skip_dist env bp hgoodbp
      have hloop : syncLoop frozen env (bp :: rest) =
          syncLoop frozen (syncPeer frozen env bp) rest := rfl
      rw [hloop, hstep]
      exact ih _ hgoodrest

end DistProbe

/-! ## The claims -/

/-- C1 (counterexample): the claim fails as stated for a batch in which two
descriptors carry the same backend id.  Reconciling two descriptors that
both carry backend id 5 against an empty Peer Store creates two LocalPeer
records whose correlation keys are both 5, because the backend-id map is
built once before the loop and neither descriptor finds the other's fresh
insert. -/
theorem C1_counterexample :
    ((NodeBin.sync_peers_to_db Fixtures.emptyDb
        [Fixtures.dupPeer, Fixtures.dupPeerB]).db.nodes.filterMap keyOf)
      = [5, 5] ∧
    ¬ ((NodeBin.sync_peers_to_db Fixtures.emptyDb
        [Fixtures.dupPeer, Fixtures.dupPeerB]).db.nodes.filterMap keyOf).Nodup := by
  constructor
  · decide
  · decide

/-- C1 (amended): over a well-formed Peer Store whose correlation keys are
unique, a reconciliation cycle whose descriptors carry pairwise-distinct
i32 backend ids never creates a second record for an existing correlation
key: the keys are still unique after the cycle.  (The amendment excludes
same-batch duplicate backend ids, which the counterexample shows violate
the claim.) -/
theorem C1_correlation_unique (db : Db) (peers : List BackendPeer)
    (hWF : db.WF)
    (hkeys : (db.nodes.filterMap keyOf).Nodup)
    (hids : (peers.map fun p => p.id).Nodup)
    (hrange : ∀ p ∈ peers, InI32 p.id) :
    ((NodeBin.sync_peers_to_db db peers).db.nodes.filterMap keyOf).Nodup := by
  obtain ⟨-, -, -, -, created, hsub, hnone, hk⟩ :=
    NodeBin.syncLoop_master db.nodes peers
      { db := db, reloads := [], metadata := [] }
      hWF hids hrange (fun p _ => NodeBin.PendingOK_init hWF p)
  have hsync : NodeBin.sync_peers_to_db db peers =
      NodeBin.syncLoop db.nodes { db := db, reloads := [], metadata := [] } peers := rfl
  rw [hsync, hk]
  rw [List.nodup_append]
  refine ⟨hkeys, List.Nodup.sublist (hsub.map fun p => p.id) hids, ?_⟩
  intro a ha hb
  obtain ⟨n, hn, hkn⟩ := List.mem_filterMap.mp ha
  obtain ⟨c, hc, hidc⟩ := List.mem_map.mp hb
  have := nodeWithBackendId_none_iff.mp (hnone c hc) n hn
  rw [hidc, hkn] at this
  exact this rfl

/-- C1 (witness): a concrete well-formed store with one record keyed 7 and
a batch with distinct ids 7 and 9 keeps the correlation keys unique. -/
theorem C1_correlation_unique_witness :
    Fixtures.db7.WF ∧
    (Fixtures.db7.nodes.filterMap keyOf).Nodup ∧
    (([Fixtures.peer7, Fixtures.peer9].map fun p => p.id).Nodup) ∧
    (∀ p ∈ [Fixtures.peer7, Fixtures.peer9], InI32 p.id) ∧
    ((NodeBin.sync_peers_to_db Fixtures.db7
        [Fixtures.peer7, Fixtures.peer9]).db.nodes.filterMap keyOf).Nodup :=
  ⟨by decide, by decide, by decide, by decide,
    C1_correlation_unique Fixtures.db7 [Fixtures.peer7, Fixtures.peer9]
      (by decide) (by decide) (by decide) (by decide)⟩

/-- C2 (counterexample): the claim fails as stated when the same list is
reconciled twice and two of its descriptors share a backend id: from an
empty store, the first run creates two records for key 5, and the second
run resolves both descriptors to the later record and issues a
try_update_node reload for it (local id 2) because the secrets differ. -/
theorem C2_counterexample :
    (NodeBin.sync_peers_to_db
        (NodeBin.sync_peers_to_db Fixtures.emptyDb
          [Fixtures.dupPeer, Fixtures.dupPeerB]).db
        [Fixtures.dupPeer, Fixtures.dupPeerB]).reloads = [2] ∧
    (NodeBin.sync_peers_to_db
        (NodeBin.sync_peers_to_db Fixtures.emptyDb
          [Fixtures.dupPeer, Fixtures.dupPeerB]).db
        [Fixtures.dupPeer, Fixtures.dupPeerB]).reloads ≠ [] := by
  constructor
  · decide
  · decide

/-- C2 (amended): reconciliation is idempotent for a batch of
pairwise-distinct i32 backend ids over a well-formed store: running the
reconciler twice from the same state leaves the store of the first run
untouched on the second run (in particular creates no records) and
triggers no try_update_node reload on the second run — in both the
standalone binary's reconciler and the distributed_probe variant.  (The
amendment excludes same-batch duplicate ids, which the counterexample
shows trigger a reload on the second run.) -/
theorem C2_idempotent (db : Db) (peers : List BackendPeer)
    (hWF : db.WF)
    (hids : (peers.map fun p => p.id).Nodup)
    (hrange : ∀ p ∈ peers, InI32 p.id) :
    ((NodeBin.sync_peers_to_db
        (NodeBin.sync_peers_to_db db peers).db peers).db =
      (NodeBin.sync_peers_to_db db peers).db ∧
    (NodeBin.sync_peers_to_db
        (NodeBin.sync_peers_to_db db peers).db peers).reloads = []) ∧
    ((DistProbe.sync_peers_to_db
        (DistProbe.sync_peers_to_db db peers).db peers).db =
      (DistProbe.sync_peers_to_db db peers).db ∧
    (DistProbe.sync_peers_to_db
        (DistProbe.sync_peers_to_db db peers).db peers).reloads = []) := by
  constructor
  · obtain ⟨-, -, hgood, -, -⟩ :=
      NodeBin.syncLoop_master db.nodes peers
        { db := db, reloads := [], metadata := [] }
        hWF hids hrange (fun p _ => NodeBin.PendingOK_init hWF p)
    have hnoop := NodeBin.syncLoop_noop
      (NodeBin.sync_peers_to_db db peers).db.nodes peers
      { db := (NodeBin.sync_peers_to_db db peers).db, reloads := [], metadata := [] }
      hgood
    exact hnoop
  · obtain ⟨-, hgood, -⟩ :=
      DistProbe.syncLoop_master_dist db.nodes peers
        { db := db, reloads := [] }
        hWF hids hrange (fun p _ => NodeBin.PendingOK_init hWF p)
    have hnoop := DistProbe.syncLoop_noop_dist
      (DistProbe.sync_peers_to_db db peers).db.nodes peers
      { db := (DistProbe.sync_peers_to_db db peers).db, reloads := [] }
      hgood
    exact hnoop

/-- C2 (witness): a concrete instance: one existing record keyed 7, a
batch with distinct ids 7 and 9; in both implementations the second run
changes nothing and reloads nothing. -/
theorem C2_idempotent_witness :
    Fixtures.db7.WF ∧
    ((NodeBin.sync_peers_to_db
        (NodeBin.sync_peers_to_db Fixtures.db7
          [Fixtures.peer7, Fixtures.peer9]).db
        [Fixtures.peer7, Fixtures.peer9]).db =
      (NodeBin.sync_peers_to_db Fixtures.db7
        [Fixtures.peer7, Fixtures.peer9]).db ∧
    (NodeBin.sync_peers_to_db
        (NodeBin.sync_peers_to_db Fixtures.db7
          [Fixtures.peer7, Fixtures.peer9]).db
        [Fixtures.peer7, Fixtures.peer9]).reloads = []) ∧
    ((DistProbe.sync_peers_to_db
        (DistProbe.sync_peers_to_db Fixtures.db7
          [Fixtures.peer7, Fixtures.peer9]).db
        [Fixtures.peer7, Fixtures.peer9]).db =
      (DistProbe.sync_peers_to_db Fixtures.db7
        [Fixtures.peer7, Fixtures.peer9]).db ∧
    (DistProbe.sync_peers_to_db
        (DistProbe.sync_peers_to_db Fixtures.db7
          [Fixtures.peer7, Fixtures.peer9]).db
        [Fixtures.peer7, Fixtures.peer9]).reloads = []) :=
  ⟨by decide,
    C2_idempotent Fixtures.db7 [Fixtures.peer7, Fixtures.peer9]
      (by decide) (by decide) (by decide)⟩

/-- C3: no reconciliation cycle deletes a LocalPeer: for every store and
every input peer list (empty lists and lists missing known peers
included), the record count never decreases and every record present
before the cycle is still present (by its local id) afterwards — in both
the standalone binary's reconciler and the embedded variant's. -/
theorem C3_no_deletion (db : Db) (peers : List BackendPeer) :
    (db.nodes.length ≤ (NodeBin.sync_peers_to_db db peers).db.nodes.length ∧
      ∀ n ∈ db.nodes,
        ∃ m, m ∈ (NodeBin.sync_peers_to_db db peers).db.nodes ∧ m.id = n.id) ∧
    (db.nodes.length ≤ (DistProbe.sync_peers_to_db db peers).db.nodes.length ∧
      ∀ n ∈ db.nodes,
        ∃ m, m ∈ (DistProbe.sync_peers_to_db db peers).db.nodes ∧ m.id = n.id) :=
  ⟨NodeBin.syncLoop_mono db.nodes peers
      { db := db, reloads := [], metadata := [] },
    DistProbe.syncLoop_mono_dist db.nodes peers { db := db, reloads := [] }⟩

/-- C3 (witness): the record stored before a cycle that does not mention
it (the cycle fetches only id 9) is still there afterwards, and the count
did not decrease. -/
theorem C3_no_deletion_witness :
    Fixtures.db7.nodes.length ≤
      (NodeBin.sync_peers_to_db Fixtures.db7 [Fixtures.peer9]).db.nodes.length ∧
    ∃ m, m ∈ (NodeBin.sync_peers_to_db Fixtures.db7
        [Fixtures.peer9]).db.nodes ∧ m.id = Fixtures.node7.id :=
  ⟨(C3_no_deletion Fixtures.db7 [Fixtures.peer9]).1.1,
    (C3_no_deletion Fixtures.db7 [Fixtures.peer9]).1.2 Fixtures.node7 (by decide)⟩

/-- C4: reconciling a single descriptor whose correlation key resolves to
an existing LocalPeer persists the descriptor's secret (a missing secret
treated as the empty string) and signals try_update_node exactly once for
that local id when the secret differs from the stored one; when the
stored secret already equals the descriptor's, no reload is signalled. -/
theorem C4_reload_on_secret_change (db : Db) (d : BackendPeer) (w : SharedNode)
    (hWF : db.WF)
    (hlook : nodeWithBackendId db.nodes d.id = some w) :
    (w.network_secret ≠ d.network_secret.getD "" →
      (NodeBin.sync_peers_to_db db [d]).reloads = [w.id] ∧
      (getNodeById (NodeBin.sync_peers_to_db db [d]).db w.id).map
        (fun n => n.network_secret) = some (d.network_secret.getD "")) ∧
    (w.network_secret = d.network_secret.getD "" →
      (NodeBin.sync_peers_to_db db [d]).reloads = []) := by
  have hget : getNodeById db w.id = some w :=
    getNodeById_of_mem hWF (nodeWithBackendId_some hlook).1
  have hsync : NodeBin.sync_peers_to_db db [d] =
      NodeBin.syncExisting { db := db, reloads := [], metadata := [] } d w := by
    show NodeBin.syncLoop db.nodes
      (NodeBin.syncPeer db.nodes { db := db, reloads := [], metadata := [] } d) []
        = _
    simp only [NodeBin.syncPeer, hlook, NodeBin.syncLoop]
  have heq := @NodeBin.syncExisting_eq
    { db := db, reloads := [], metadata := [] } d w hWF hget
  constructor
  · intro hsec
    constructor
    · rw [hsync, heq]
      show [] ++ (if w.network_secret ≠ d.network_secret.getD ""
        then [w.id] else []) = [w.id]
      rw [if_pos hsec, List.nil_append]
    · rw [hsync, heq]
      show ((db.nodes.map fun n =>
          if n.id = w.id then NodeBin.updExisting d w else n).find?
            fun n => n.id = w.id).map (fun n => n.network_secret) = _
      rw [@NodeBin.find?_id_mapupd (NodeBin.updExisting d w) db.nodes w
        (show (NodeBin.updExisting d w).id = w.id from rfl) w.id]
      have hfind : (db.nodes.find? fun n => n.id = w.id) = some w := hget
      rw [hfind]
      show some ((if w.id = w.id then NodeBin.updExisting d w else w).network_secret)
        = _
      rw [if_pos rfl]
      rfl
  · intro hsec
    rw [hsync, heq]
    show [] ++ (if w.network_secret ≠ d.network_secret.getD ""
      then [w.id] else []) = []
    rw [if_neg (not_ne_iff.mpr hsec), List.nil_append]

/-- C4 (witness): against the store holding the record keyed 7 with
secret "old-secret", reconciling the descriptor carrying "new-secret"
reloads exactly local id 1 and persists "new-secret"; reconciling the
descriptor carrying "old-secret" reloads nothing. -/
theorem C4_reload_on_secret_change_witness :
    Fixtures.node7.network_secret ≠ Fixtures.peer7.network_secret.getD "" ∧
    (NodeBin.sync_peers_to_db Fixtures.db7 [Fixtures.peer7]).reloads = [1] ∧
    (getNodeById (NodeBin.sync_peers_to_db Fixtures.db7 [Fixtures.peer7]).db 1).map
      (fun n => n.network_secret) = some "new-secret" ∧
    (NodeBin.sync_peers_to_db Fixtures.db7 [Fixtures.peer7same]).reloads = [] := by
  have h1 := C4_reload_on_secret_change Fixtures.db7 Fixtures.peer7
    Fixtures.node7 (by decide) (by decide)
  have h2 := C4_reload_on_secret_change Fixtures.db7 Fixtures.peer7same
    Fixtures.node7 (by decide) (by decide)
  exact ⟨by decide, (h1.1 (by decide)).1, (h1.1 (by decide)).2, h2.2 (by decide)⟩

/-- C5: in the per-peer report retry loop, an attempt whose error carries
an unauthorized signal (text containing 401 or Unauthorized) is never
retried: when the first attempt fails that way the loop stops after
exactly 1 attempt with no backoff sleep, while a first failure without
that signal leads to at least a second attempt. -/
theorem C5_unauthorized_short_circuit (outcome : Nat → Except String Unit)
    (e : String) (h0 : outcome 0 = Except.error e) :
    (NodeBin.isAuthError e = true →
      NodeBin.report_with_retry outcome = (1, [])) ∧
    (NodeBin.isAuthError e = false →
      2 ≤ (NodeBin.report_with_retry outcome).1) := by
  constructor
  · intro ha
    show NodeBin.reportRetryGo outcome 0 3 = (1, [])
    unfold NodeBin.reportRetryGo
    rw [h0]
    simp only []
    rw [if_pos ha]
  · intro ha
    show 2 ≤ (NodeBin.reportRetryGo outcome 0 3).1
    unfold NodeBin.reportRetryGo
    rw [h0]
    simp only []
    rw [if_neg (by rw [ha]; exact Bool.false_ne_true),
      if_neg (by omega : ¬ (2 : Nat) = 0)]
    simp only []
    have h2 := NodeBin.reportRetryGo_attempts_ge outcome 2 (0 + 1)
    omega

/-- C5 (witness): a first attempt failing with an HTTP 401 message makes
the loop stop after exactly one attempt with no sleep. -/
theorem C5_unauthorized_short_circuit_witness :
    Fixtures.authOutcome 0 = Except.error "HTTP status 401 Unauthorized" ∧
    NodeBin.isAuthError "HTTP status 401 Unauthorized" = true ∧
    NodeBin.report_with_retry Fixtures.authOutcome = (1, []) :=
  ⟨rfl, by decide,
    (C5_unauthorized_short_circuit Fixtures.authOutcome
      "HTTP status 401 Unauthorized" rfl).1 (by decide)⟩

/-- C6 (counterexample): the claim fails as stated: when every attempt
fails with a non-unauthorized error, the loop sleeps 2 then 4 seconds and
gives up after the third failed attempt without the claimed 8-second
delay, because retry_count reaches max_retries before the sleep. -/
theorem C6_counterexample :
    (NodeBin.report_with_retry Fixtures.failOutcome).2 = [2, 4] ∧
    (NodeBin.report_with_retry Fixtures.failOutcome).2 ≠ [2, 4, 8] := by
  constructor
  · decide
  · decide

/-- C6 (amended): when every report attempt fails with a non-unauthorized
error, the loop makes exactly 3 attempts with successive backoff delays of
2 and 4 seconds (after the first and second failures) and gives up after
the third failure with no further delay. -/
theorem C6_backoff_growth (outcome : Nat → Except String Unit)
    (err : Nat → String)
    (hout : ∀ n, outcome n = Except.error (err n))
    (hauth : ∀ n, NodeBin.isAuthError (err n) = false) :
    NodeBin.report_with_retry outcome = (3, [2, 4]) := by
  show NodeBin.reportRetryGo outcome 0 3 = (3, [2, 4])
  unfold NodeBin.reportRetryGo
  rw [hout 0]
  simp only []
  rw [if_neg (by rw [hauth 0]; exact Bool.false_ne_true),
    if_neg (by omega : ¬ (2 : Nat) = 0)]
  unfold NodeBin.reportRetryGo
  rw [hout 1]
  simp only []
  rw [if_neg (by rw [hauth 1]; exact Bool.false_ne_true),
    if_neg (by omega : ¬ (1 : Nat) = 0)]
  unfold NodeBin.reportRetryGo
  rw [hout 2]
  simp [hauth 2]

/-- C6 (witness): with every attempt failing on a connection error, the
loop reports 3 attempts and the sleep sequence 2, 4. -/
theorem C6_backoff_growth_witness :
    (∀ n, Fixtures.failOutcome n = Except.error "connection refused") ∧
    NodeBin.report_with_retry Fixtures.failOutcome = (3, [2, 4]) := by
  have hfalse : NodeBin.isAuthError "connection refused" = false := by decide
  exact ⟨fun _ => rfl,
    C6_backoff_growth Fixtures.failOutcome (fun _ => "connection refused")
      (fun _ => rfl) (fun _ => hfalse)⟩

/-- C7: in aggregate reporting, whenever the healthy peers' raw latencies
are [5000, 7000, 9000] native ticks, the computed average is 7 ms and the
maximum 9 ms: each tick value is converted by truncating division by 1000,
the average is the truncated per-value sum divided by the count, and the
maximum is taken over the raw values before conversion. -/
theorem C7_unit_conversion
    (allStatuses : List (Nat × HealthStatus × Option String))
    (rtt : Nat → Option Int)
    (h : DistProbe.healthyRttValues allStatuses rtt = [5000, 7000, 9000]) :
    DistProbe.avg_response_time allStatuses rtt = some 7 ∧
    DistProbe.max_response_time allStatuses rtt = some 9 := by
  have hne : allStatuses.isEmpty = false := by
    cases allStatuses with
    | nil =>
      exfalso
      have : DistProbe.healthyRttValues [] rtt = [] := rfl
      rw [this] at h
      cases h
    | cons a t => rfl
  constructor
  · simp only [DistProbe.avg_response_time, hne, Bool.false_eq_true,
      if_false, h]
    decide
  · simp only [DistProbe.max_response_time, hne, Bool.false_eq_true,
      if_false, h]
    decide

/-- C7 (witness): three healthy peers with raw latencies 5000, 7000 and
9000 ticks yield average 7 and maximum 9 milliseconds. -/
theorem C7_unit_conversion_witness :
    DistProbe.healthyRttValues Fixtures.sts0 Fixtures.rtt0
      = [5000, 7000, 9000] ∧
    DistProbe.avg_response_time Fixtures.sts0 Fixtures.rtt0 = some 7 ∧
    DistProbe.max_response_time Fixtures.sts0 Fixtures.rtt0 = some 9 :=
  ⟨by decide,
    (C7_unit_conversion Fixtures.sts0 Fixtures.rtt0 (by decide)).1,
    (C7_unit_conversion Fixtures.sts0 Fixtures.rtt0 (by decide)).2⟩

/-- C8: a descriptor whose correlation key is not in the Peer Store and
which carries no address information is skipped: the reconciliation of the
batch beginning with it equals the reconciliation of the remaining batch
— no record is created, the cycle does not abort, and every subsequent
descriptor is processed exactly as it would have been without it — in
both the standalone binary's reconciler and the embedded variant's. -/
theorem C8_missing_address_skip (db : Db) (d : BackendPeer)
    (rest : List BackendPeer)
    (hkey : nodeWithBackendId db.nodes d.id = none)
    (hip : d.public_ip = none) :
    NodeBin.sync_peers_to_db db (d :: rest) =
      NodeBin.sync_peers_to_db db rest ∧
    DistProbe.sync_peers_to_db db (d :: rest) =
      DistProbe.sync_peers_to_db db rest := by
  constructor
  · have hstep : NodeBin.syncPeer db.nodes
        { db := db, reloads := [], metadata := [] } d
        = { db := db, reloads := [], metadata := [] } := by
      simp only [NodeBin.syncPeer, hkey]
      exact NodeBin.syncNew_skip _ d hip
    show NodeBin.syncLoop db.nodes
      (NodeBin.syncPeer db.nodes { db := db, reloads := [], metadata := [] } d)
      rest = NodeBin.syncLoop db.nodes { db := db, reloads := [], metadata := [] } rest
    rw [hstep]
  · have hstep : DistProbe.syncPeer db.nodes { db := db, reloads := [] } d
        = { db := db, reloads := [] } := by
      simp only [DistProbe.syncPeer, hkey]
      exact DistProbe.syncNew_skip_dist _ d hip
    show DistProbe.syncLoop db.nodes
      (DistProbe.syncPeer db.nodes { db := db, reloads := [] } d) rest
      = DistProbe.syncLoop db.nodes { db := db, reloads := [] } rest
    rw [hstep]

/-- C8 (witness): a concrete batch starting with an address-less unknown
descriptor reconciles exactly as the batch without it. -/
theorem C8_missing_address_skip_witness :
    nodeWithBackendId Fixtures.db7.nodes Fixtures.peerNoIp.id = none ∧
    Fixtures.peerNoIp.public_ip = none ∧
    NodeBin.sync_peers_to_db Fixtures.db7 [Fixtures.peerNoIp, Fixtures.peer9]
      = NodeBin.sync_peers_to_db Fixtures.db7 [Fixtures.peer9] :=
  ⟨by decide, rfl,
    (C8_missing_address_skip Fixtures.db7 Fixtures.peerNoIp [Fixtures.peer9]
      (by decide) rfl).1⟩

/-- C9 (counterexample): the claim fails as stated on the embedded variant
easytier-uptime/src/neo_uptime_node.rs it cites: there the reported status
string for a Healthy peer is "Online", not "online", and an unobserved
latency is passed through as none rather than substituted with 0. -/
theorem C9_counterexample :
    NodeVariant.reportStatusStr HealthStatus.Healthy = "Online" ∧
    NodeVariant.reportStatusStr HealthStatus.Healthy ≠ "online" ∧
    NodeVariant.reportResponseTimeMs none = none := by
  refine ⟨rfl, ?_, rfl⟩
  decide

/-- C9 (amended): in the standalone binary neo-uptime-node/src/main.rs the
claim holds: the reported status is "online" exactly for Healthy and
"offline" otherwise, and the reported latency is the last response time
divided by 1000 with 0 substituted when none was observed; the embedded
variant differs only in capitalizing the strings ("Online"/"Offline") and
passing the converted latency as an optional without the 0 default. -/
theorem C9_report_shape :
    NodeBin.reportStatusStr HealthStatus.Healthy = "online" ∧
    (∀ hs : HealthStatus, hs ≠ HealthStatus.Healthy →
      NodeBin.reportStatusStr hs = "offline") ∧
    NodeBin.reportLatencyMs none = 0 ∧
    (∀ us : Int, NodeBin.reportLatencyMs (some us) = Int.tdiv us 1000) ∧
    NodeVariant.reportStatusStr HealthStatus.Healthy = "Online" ∧
    (∀ hs : HealthStatus, hs ≠ HealthStatus.Healthy →
      NodeVariant.reportStatusStr hs = "Offline") ∧
    (∀ rtt_us : Option Int, NodeVariant.reportResponseTimeMs rtt_us =
      rtt_us.map fun us => Int.tdiv us 1000) := by
  refine ⟨rfl, ?_, rfl, fun us => rfl, rfl, ?_, fun rtt_us => rfl⟩
  · intro hs h
    cases hs with
    | Healthy => exact absurd rfl h
    | Unhealthy => rfl
    | Unknown => rfl
  · intro hs h
    cases hs with
    | Healthy => exact absurd rfl h
    | Unhealthy => rfl
    | Unknown => rfl

/-- C9 (witness): an Unhealthy peer reports "offline" and a 5500-tick
latency reports as 5 ms. -/
theorem C9_report_shape_witness :
    NodeBin.reportStatusStr HealthStatus.Unhealthy = "offline" ∧
    NodeBin.reportLatencyMs (some 5500) = 5 := by
  refine ⟨C9_report_shape.2.1 HealthStatus.Unhealthy (by decide), ?_⟩
  rw [C9_report_shape.2.2.2.1 5500]
  decide

/-- C10: fetch_peers isolates per-node failures: when the initial
node-status request succeeds it returns Ok, whatever the per-node
private-info outcomes, and the returned list is exactly the node-status
list filtered to the nodes whose private info succeeded, combined in
order; when the initial request fails the whole call fails. -/
theorem C10_fetch_isolation (l : List BackendClientApi.NodeStatus)
    (privInfo : Int → Except String BackendClientApi.NodePrivateInfo) :
    BackendClientApi.fetch_peers (Except.ok l) privInfo =
      Except.ok (l.filterMap fun ns =>
        (BackendClientApi.okPart (privInfo ns.node_id)).map
          (BackendClientApi.combinePeer ns)) ∧
    ∀ e, BackendClientApi.fetch_peers (Except.error e) privInfo
      = Except.error e := by
  constructor
  · show Except.ok (BackendClientApi.fetchPeersLoop privInfo l) = _
    congr 1
    induction l with
    | nil => rfl
    | cons ns rest ih =>
      rw [List.filterMap_cons]
      show (match privInfo ns.node_id with
        | Except.ok info =>
          BackendClientApi.combinePeer ns info ::
            BackendClientApi.fetchPeersLoop privInfo rest
        | Except.error _ => BackendClientApi.fetchPeersLoop privInfo rest) = _
      cases hpi : privInfo ns.node_id with
      | ok info =>
        simp only [BackendClientApi.okPart, Option.map_some', ih]
      | error e =>
        simp only [BackendClientApi.okPart, Option.map_none', ih]
  · intro e
    rfl

end NeoUptime
